import Mathlib

/-!
Shallow embedding of src/afgorelsesportalen/sync.py.

Strings are modelled as Lean Strings; the Python string primitives used by the
source (strip, split, replace, lower, capitalize, percent-unquoting, CPython's
urllib.parse.urlparse) are re-implemented below on lists of characters,
following the CPython 3.11 sources. All definitions are structurally
recursive so that concrete runs evaluate by rfl and decide.

Modelling boundaries (none of them touched by the claims):
- Unicode case mapping and whitespace are modelled for ASCII plus the Danish
  letters Æ/Ø/Å that appear in the source and its data.
- urllib.parse.unquote decodes each %XX escape to the character with that code
  (a single-byte approximation of the UTF-8 decode; the source pre-replaces the
  one multi-byte escape it cares about, %C3%A6, before calling unquote).
- urlsplit's ValueError paths for malformed bracketed IPv6 hosts and non-NFKC
  netlocs are not modelled.
-/

/-- Python str whitespace (ASCII part: space, \t, \n, \r, \x0b, \x0c). -/
def pyIsSpace (c : Char) : Bool :=
  c = ' ' ∨ c = '\t' ∨ c = '\n' ∨ c = '\r' ∨ c = Char.ofNat 11 ∨ c = Char.ofNat 12

/-- Python str.lower on one char (ASCII plus Æ/Ø/Å). -/
def pyToLower (c : Char) : Char :=
  if 'A' ≤ c ∧ c ≤ 'Z' then Char.ofNat (c.toNat + 32)
  else if c = 'Æ' then 'æ' else if c = 'Ø' then 'ø' else if c = 'Å' then 'å'
  else c

/-- Python str.upper / title-case on one char (ASCII plus æ/ø/å). -/
def pyToUpper (c : Char) : Char :=
  if 'a' ≤ c ∧ c ≤ 'z' then Char.ofNat (c.toNat - 32)
  else if c = 'æ' then 'Æ' else if c = 'ø' then 'Ø' else if c = 'å' then 'Å'
  else c

def lowerList (l : List Char) : List Char := l.map pyToLower

/-- Python str.strip() on a char list: drop whitespace from both ends. -/
def stripList (l : List Char) : List Char :=
  (((l.dropWhile pyIsSpace).reverse.dropWhile pyIsSpace)).reverse

/-- Python str.strip() on a String. -/
def pyStrip (s : String) : String := String.mk (stripList s.data)

/-- Python str.split(sep) for a one-char separator: keeps empty pieces. -/
def splitOnCharList (sep : Char) : List Char → List (List Char)
  | [] => [[]]
  | c :: cs =>
    match splitOnCharList sep cs with
    | [] => [[]]
    | piece :: rest => if c = sep then [] :: piece :: rest else (c :: piece) :: rest

/-- Python sep.join(pieces) for String pieces. -/
def pyJoin (sep : String) : List String → String
  | [] => ""
  | [x] => x
  | x :: xs => x ++ sep ++ pyJoin sep xs

/-- Python " ".join on char-list words. -/
def joinWithSpace : List (List Char) → List Char
  | [] => []
  | [w] => w
  | w :: ws => w ++ ' ' :: joinWithSpace ws

/-- Python substring containment (pat in s). -/
def listContains (pat : List Char) : List Char → Bool
  | [] => pat.isEmpty
  | c :: cs => pat.isPrefixOf (c :: cs) || listContains pat cs

/-- Split at the first occurrence of a char: (before, some after) when found. -/
def breakAtChar (sep : Char) : List Char → List Char × Option (List Char)
  | [] => ([], none)
  | c :: cs =>
    if c = sep then ([], some cs)
    else
      let p := breakAtChar sep cs
      (c :: p.1, p.2)

/-- Index of the last occurrence of a char (Python str.rfind, as an Option). -/
def lastIdxOf (t : Char) : List Char → Option Nat
  | [] => none
  | c :: cs =>
    match lastIdxOf t cs with
    | some i => some (i + 1)
    | none => if c = t then some 0 else none

/-- Index of the first occurrence of a char (Python str.find, as an Option). -/
def firstIdxOf (t : Char) : List Char → Option Nat
  | [] => none
  | c :: cs => if c = t then some 0 else (firstIdxOf t cs).map (· + 1)

/-- pathlib.PurePath.stem: the file name without its suffix; the suffix is the
part from the last dot on, and is empty when the last dot is the leading
character or absent (CPython pathlib). -/
def pyStem (name : String) : String :=
  let cs := name.data
  match lastIdxOf '.' cs with
  | some i => if 0 < i ∧ i < cs.length - 1 then String.mk (cs.take i) else name
  | none => name

/-- Python str.replace, fuelled by the list length (each step consumes at
least one char, so the fuel never runs out on the start value). -/
def replaceAux (pat rep : List Char) : Nat → List Char → List Char
  | _, [] => []
  | 0, l => l
  | fuel + 1, c :: cs =>
    if pat ≠ [] ∧ pat.isPrefixOf (c :: cs) then
      rep ++ replaceAux pat rep fuel (List.drop (pat.length - 1) cs)
    else
      c :: replaceAux pat rep fuel cs

/-- Python str.replace(pat, rep) for non-empty pat, left to right,
non-overlapping. -/
def replaceAll (pat rep l : List Char) : List Char := replaceAux pat rep l.length l

def hexVal (c : Char) : Option Nat :=
  if '0' ≤ c ∧ c ≤ '9' then some (c.toNat - '0'.toNat)
  else if 'a' ≤ c ∧ c ≤ 'f' then some (c.toNat - 'a'.toNat + 10)
  else if 'A' ≤ c ∧ c ≤ 'F' then some (c.toNat - 'A'.toNat + 10)
  else none

/-- urllib.parse.unquote: decode %XX escapes; invalid escapes are kept as-is. -/
def pyUnquote : List Char → List Char
  | [] => []
  | '%' :: a :: b :: rest =>
    match hexVal a, hexVal b with
    | some x, some y => Char.ofNat (16 * x + y) :: pyUnquote rest
    | _, _ => '%' :: pyUnquote (a :: b :: rest)
  | c :: rest => c :: pyUnquote rest

def isDashU (c : Char) : Bool := c = '-' ∨ c = '_'

/-- re.sub(r"[-_]+", " ", s): each maximal run of - and _ becomes one space.
The Bool argument records whether the previous char belonged to a run. -/
def subDashAux : Bool → List Char → List Char
  | _, [] => []
  | prevDash, c :: cs =>
    if isDashU c then
      (if prevDash then [] else [' ']) ++ subDashAux true cs
    else
      c :: subDashAux false cs

def subDashRuns (l : List Char) : List Char := subDashAux false l

/-- Python str.capitalize(): first char title-cased, the rest lowered. -/
def pyCapitalize : List Char → List Char
  | [] => []
  | c :: cs => pyToUpper c :: cs.map pyToLower

/-- Python str.split() (no argument): split on whitespace runs, no empties.
The accumulator holds the current word reversed. -/
def splitWSAux (cur : List Char) : List Char → List (List Char)
  | [] => if cur = [] then [] else [cur.reverse]
  | c :: cs =>
    if pyIsSpace c then
      if cur = [] then splitWSAux [] cs else cur.reverse :: splitWSAux [] cs
    else
      splitWSAux (c :: cur) cs

def pySplitWS (l : List Char) : List (List Char) := splitWSAux [] l

/-- Decimal digits of a Nat, most significant first, fuelled. -/
def natDigitsAux : Nat → Nat → List Char
  | 0, _ => []
  | fuel + 1, n =>
    if n < 10 then [Nat.digitChar n]
    else natDigitsAux fuel (n / 10) ++ [Nat.digitChar (n % 10)]

def natDigits (n : Nat) : List Char := natDigitsAux (n + 1) n

/-- %0wd-style zero padding. -/
def padZeros (w : Nat) (ds : List Char) : List Char :=
  List.replicate (w - ds.length) '0' ++ ds

/-! ## urllib.parse.urlparse (CPython 3.11) -/

structure UrlParts where
  scheme : String
  netloc : String
  path : String
  params : String
  query : String
  fragment : String
deriving DecidableEq

def schemeChars : List Char :=
  "abcdefghijklmnopqrstuvwxyzABCDEFGHIJKLMNOPQRSTUVWXYZ0123456789+-.".data

def isAsciiAlpha (c : Char) : Bool :=
  ('a' ≤ c ∧ c ≤ 'z') ∨ ('A' ≤ c ∧ c ≤ 'Z')

/-- Schemes for which urlparse splits path parameters (urllib uses_params). -/
def usesParams : List String :=
  ["", "ftp", "hdl", "prospero", "http", "imap", "https", "shttp", "rtsp",
   "rtsps", "rtspu", "sip", "sips", "mms", "sftp", "tel"]

/-- _splitnetloc: the netloc runs up to the first of / ? #. -/
def netlocStop (c : Char) : Bool := c = '/' ∨ c = '?' ∨ c = '#'

/-- _splitparams: drop the part of the last path segment after its first
semicolon. -/
def splitParamsPath (p : List Char) : List Char :=
  if p.contains '/' then
    match lastIdxOf '/' p with
    | some k =>
      match firstIdxOf ';' (p.drop k) with
      | some j => p.take (k + j)
      | none => p
    | none => p
  else
    p.takeWhile (fun c => c ≠ ';')

/-- urllib.parse.urlparse on a string URL (CPython 3.11 urlsplit followed by
the params split). The ValueError paths for bracketed hosts are not
modelled. -/
def urlparse (url : String) : UrlParts :=
  -- WHATWG sanitisation: lstrip C0 controls and space, remove \t \r \n.
  let u0 := (url.data.dropWhile (fun c => c.toNat ≤ 32)).filter
    (fun c => ¬(c = '\t' ∨ c = '\r' ∨ c = '\n'))
  -- scheme detection
  let schemeSplit : List Char × List Char :=
    match firstIdxOf ':' u0 with
    | some i =>
      let headOk : Bool :=
        match u0 with
        | c :: _ => decide (c.toNat ≤ 127) && isAsciiAlpha c
        | [] => false
      if 0 < i ∧ headOk ∧ (u0.take i).all (fun c => schemeChars.contains c) then
        (lowerList (u0.take i), u0.drop (i + 1))
      else ([], u0)
    | none => ([], u0)
  let scheme := schemeSplit.1
  let u1 := schemeSplit.2
  -- netloc
  let netlocSplit : List Char × List Char :=
    if u1.take 2 = ['/', '/'] then
      ((u1.drop 2).takeWhile (fun c => ¬ netlocStop c),
       (u1.drop 2).dropWhile (fun c => ¬ netlocStop c))
    else ([], u1)
  let netloc := netlocSplit.1
  let u2 := netlocSplit.2
  -- fragment, then query
  let fragSplit := breakAtChar '#' u2
  let u3 := fragSplit.1
  let fragment := (fragSplit.2).getD []
  let querySplit := breakAtChar '?' u3
  let u4 := querySplit.1
  let query := (querySplit.2).getD []
  -- params (urlparse on top of urlsplit)
  let paramsApplies := usesParams.contains (String.mk scheme) ∧ u4.contains ';'
  let path := if paramsApplies then splitParamsPath u4 else u4
  let params := if paramsApplies then u4.drop (path.length + 1) else []
  { scheme := String.mk scheme, netloc := String.mk netloc,
    path := String.mk path, params := String.mk params,
    query := String.mk query, fragment := String.mk fragment }

/-! ## URL classifiers (sync.py) -/

/-- sync.py _looks_like_decision: the lowered URL contains /afgoerelse/ or
/nyhed/ as a substring. -/
def _looks_like_decision (url : String) : Bool :=
  let lowered := lowerList url.data
  listContains "/afgoerelse/".data lowered || listContains "/nyhed/".data lowered

/-- sync.py _extract_guid. -/
def _extract_guid (url : String) : Option String :=
  let path := (urlparse url).path
  let segments := (splitOnCharList '/' path.data).filter (fun s => s ≠ [])
  match segments.getLast? with
  | none => none
  | some cand =>
    let cand := cand.takeWhile (fun c => c ≠ '?')
    let cand := cand.takeWhile (fun c => c ≠ '#')
    if cand = [] then none else some (String.mk cand)

/-- sync.py _derive_board_name. -/
def _derive_board_name (url : String) : String :=
  let parsed := urlparse url
  let path_parts := (splitOnCharList '/' parsed.path.data).filter (fun s => s ≠ [])
  let slug : List Char :=
    match path_parts with
    | p0 :: p1 :: _ =>
      if lowerList p0 = "naevn".data ∨ lowerList p0 = "nævn".data then p1 else p0
    | [p0] => p0
    | [] => parsed.netloc.data
  let slug := replaceAll "%C3%A6".data "æ".data slug
  let slug := replaceAll "-%".data "-".data slug
  let cleaned := pyUnquote slug
  let cleaned := subDashRuns cleaned
  let cleaned := replaceAll "Naevn".data "Nævn".data cleaned
  let cleaned := replaceAll "naevn".data "nævn".data cleaned
  let cleaned := stripList cleaned
  if cleaned = [] then parsed.netloc
  else String.mk (joinWithSpace ((pySplitWS cleaned).map pyCapitalize))

/-! ## Sitemap walker (sync.py _strip_namespace, _iterate_sitemap_urls)

An XML document is modelled as a rose tree of elements carrying their tag and
text, which is what ElementTree exposes of it to the walker. A sitemap fetch
is an oracle returning the HTTP status code and the parsed root element; the
walker's own recursion is fuelled (running out of fuel models CPython's
RecursionError on a sitemap tree nested deeper than the stack allows, which
likewise propagates out of the run). -/

inductive XmlElem where
  | node (tag : String) (text : Option String) (children : List XmlElem)

def XmlElem.tag : XmlElem → String
  | .node t _ _ => t

def XmlElem.text : XmlElem → Option String
  | .node _ tx _ => tx

def XmlElem.children : XmlElem → List XmlElem
  | .node _ _ cs => cs

/-- All proper descendants of an element in document order
(ElementTree findall(".//...")). -/
def XmlElem.descendants : XmlElem → List XmlElem
  | .node _ _ cs => descendantsList cs
where descendantsList : List XmlElem → List XmlElem
  | [] => []
  | c :: rest => c :: c.descendants ++ descendantsList rest

/-- sync.py _strip_namespace: tag.split("\x7d")[-1] when a closing brace is
present, i.e. everything after the last closing brace. -/
def _strip_namespace (tag : String) : String :=
  match lastIdxOf '\x7d' tag.data with
  | some i => String.mk (tag.data.drop (i + 1))
  | none => tag

/-- findall(".//{*}loc"): descendant elements whose local tag name is loc. -/
def findLocs (x : XmlElem) : List XmlElem :=
  x.descendants.filter (fun e => _strip_namespace e.tag = "loc")

/-- sync.py _iterate_sitemap_urls, with the generator fully consumed
(update_decision_knowledge wraps it in list(...)). The error string is the
SitemapError message. -/
def _iterate_sitemap_urls (sfetch : String → Nat × XmlElem) :
    Nat → String → Except String (List String)
  | 0, _ => .error "RecursionError"
  | fuel + 1, url =>
    let r := sfetch url
    if r.1 ≥ 400 then
      .error ("Failed to fetch sitemap " ++ url ++ ": HTTP " ++ toString r.1)
    else
      let tag := _strip_namespace r.2.tag
      if tag = "sitemapindex" then
        let childUrls := (findLocs r.2).filterMap (fun child =>
          match child.text with
          | some t => if stripList t.data = [] then none else some (pyStrip t)
          | none => none)
        childUrls.foldlM (fun acc cu =>
          (_iterate_sitemap_urls sfetch fuel cu).map (fun xs => acc ++ xs)) []
      else if tag = "urlset" then
        .ok ((findLocs r.2).filterMap (fun loc =>
          match loc.text with
          | some t =>
            if t = "" then none
            else
              let link := pyStrip t
              if _looks_like_decision link then some link else none
          | none => none))
      else
        .error ("Unsupported sitemap type \x27" ++ tag ++ "\x27 at " ++ url)

/-! ## Page extractor (sync.py _extract_title, _extract_published,
_extract_body_text, _download_decision)

A parsed HTML page (BeautifulSoup object) is modelled by what each query the
extractor performs returns:
- metaOgTitle: find("meta", property="og:title") — none when the tag is
  absent, some attr when present, where attr is its content attribute
  (bs4 Tag objects are always truthy);
- titleString: soup.title — none when absent, some s when present with s its
  .string (none unless the tag has exactly one string child);
- h1Text: the first h1's get_text(strip=True), none when no h1 exists;
- published: the result of the time-element extraction
  (_extract_published's date parsing is kept abstract behind this field);
- articleText / mainText / contentDivText: get_text("\n", strip=True) of the
  first article element, main element, and content/article/entry div,
  none when the element is absent;
- fullText: get_text("\n", strip=True) of the whole document. -/

/-- datetime.datetime, abstracted to the fields isoformat renders
(microseconds are not modelled; tzMinutes is the utcoffset in minutes). -/
structure PyDateTime where
  year : Nat
  month : Nat
  day : Nat
  hour : Nat
  minute : Nat
  second : Nat
  tzMinutes : Option Int
deriving DecidableEq

def isoChars (dt : PyDateTime) : List Char :=
  padZeros 4 (natDigits dt.year) ++ '-' :: padZeros 2 (natDigits dt.month) ++
  '-' :: padZeros 2 (natDigits dt.day) ++ 'T' :: padZeros 2 (natDigits dt.hour) ++
  ':' :: padZeros 2 (natDigits dt.minute) ++ ':' :: padZeros 2 (natDigits dt.second) ++
  (match dt.tzMinutes with
   | none => []
   | some m =>
     (if 0 ≤ m then '+' else '-') ::
       padZeros 2 (natDigits (m.natAbs / 60)) ++ ':' :: padZeros 2 (natDigits (m.natAbs % 60)))

/-- datetime.isoformat(). -/
def PyDateTime.isoformat (dt : PyDateTime) : String := String.mk (isoChars dt)

structure Soup where
  metaOgTitle : Option (Option String)
  titleString : Option (Option String)
  h1Text : Option String
  published : Option PyDateTime
  articleText : Option String
  mainText : Option String
  contentDivText : Option String
  fullText : String
deriving DecidableEq

/-- sync.py _extract_title. Each candidate fires when Python finds its raw
value truthy (present and a non-empty string); the meta and title candidates
are returned stripped, get_text(strip=True) is already stripped. -/
def _extract_title (soup : Soup) : Option String :=
  let ogHit : Option String :=
    match soup.metaOgTitle with
    | some (some c) => if c = "" then none else some (pyStrip c)
    | _ => none
  let titleHit : Option String :=
    match soup.titleString with
    | some (some t) => if t = "" then none else some (pyStrip t)
    | _ => none
  let h1Hit : Option String :=
    match soup.h1Text with
    | some t => if t = "" then none else some t
    | none => none
  match ogHit with
  | some v => some v
  | none =>
    match titleHit with
    | some v => some v
    | none => h1Hit

/-- sync.py _extract_published (the strptime cascade is abstracted into the
Soup field, see above). -/
def _extract_published (soup : Soup) : Option PyDateTime := soup.published

/-- sync.py _extract_body_text: first present container wins; bs4 Tag
objects are truthy even when empty, so presence, not non-emptiness, decides. -/
def _extract_body_text (soup : Soup) : String :=
  match soup.articleText with
  | some t => t
  | none =>
    match soup.mainText with
    | some t => t
    | none =>
      match soup.contentDivText with
      | some t => t
      | none => soup.fullText

/-- Python's x or y for an optional string x: y when x is absent or empty. -/
def pyOrStr (x : Option String) (y : String) : String :=
  match x with
  | some s => if s = "" then y else s
  | none => y

/-! ## Decision (sync.py Decision, Decision.as_text) -/

structure Decision where
  guid : String
  board : String
  url : String
  title : String
  published : Option PyDateTime
  body : String
deriving DecidableEq

/-- sync.py Decision.as_text. -/
def Decision.as_text (d : Decision) : String :=
  let published_text := match d.published with
    | some p => p.isoformat
    | none => "Unknown"
  pyJoin "\n"
    ["GUID: " ++ d.guid,
     "Board: " ++ d.board,
     "Published: " ++ published_text,
     "Source: " ++ d.url,
     "",
     d.title,
     String.mk (List.replicate d.title.length '='),
     "",
     pyStrip d.body,
     ""]

/-- sync.py _download_decision: the fetch oracle returns none when the HTTP
GET, raise_for_status or the HTML parse raises (the failure modes the caller
catches); on success the extraction is pure. -/
def _download_decision (fetch : String → Option Soup) (url guid board : String) :
    Option Decision :=
  (fetch url).map (fun soup =>
    { guid := guid, board := board, url := url,
      title := pyOrStr (_extract_title soup) ("Afgørelse " ++ guid),
      published := _extract_published soup,
      body := _extract_body_text soup })

/-! ## Archive filesystem model

The archive is the set of regular files under the archive root: each entry is
(directory, file name, content). Directories need no separate representation
(mkdir only ensures they exist). write_text truncates and rewrites, so a write
replaces any entry with the same directory and name. The wfail oracle says on
which targets write_text raises OSError (models a fallible disk). -/

structure FileEnt where
  dir : String
  name : String
  content : String
deriving DecidableEq

abbrev FS := List FileEnt

/-- Content of the file at (d, n), if present. -/
def FS.read (fs : FS) (d n : String) : Option String :=
  (fs.find? (fun e => decide (e.dir = d ∧ e.name = n))).map FileEnt.content

/-- Path(target).write_text(c): replace or create the file. -/
def FS.write (fs : FS) (d n c : String) : FS :=
  { dir := d, name := n, content := c } ::
    fs.filter (fun e => decide (¬(e.dir = d ∧ e.name = n)))

/-- archive_dir.glob("*.txt") filtered to files, mapped to path.stem: the
stems of the .txt file names in the directory (pathlib's glob does match
names starting with a dot, checked against CPython 3.11). -/
def FS.txtStems (fs : FS) (d : String) : List String :=
  (fs.filter (fun e => decide (e.dir = d) && List.isSuffixOf ".txt".data e.name.data)).map
    (fun e => pyStem e.name)

/-! ## Archive reconciler (sync.py update_decision_knowledge) -/

/-- An exception escaping update_decision_knowledge: a SitemapError carrying
its message, or an OSError from write_text on the given target. -/
inductive RunErr where
  | sitemapErr (msg : String)
  | writeErr (dir name : String)
deriving DecidableEq

/-- The mutable state of the per-board loop: the filesystem, the
existing_guids set and the added counter. -/
structure BState where
  fs : FS
  existing : List String
  added : Nat
deriving DecidableEq

/-- The board directory: archive_root / f"{board} afgørelser". -/
def boardDir (root board : String) : String := root ++ "/" ++ board ++ " afgørelser"

/-- The inner for url in urls loop of update_decision_knowledge. Returns the
state reached and the exception that aborted the loop, if any. -/
def processUrls (fetch : String → Option Soup) (wfail : String → String → Bool)
    (dir board : String) : List String → BState → BState × Option RunErr
  | [], st => (st, none)
  | url :: rest, st =>
    match _extract_guid url with
    | none => processUrls fetch wfail dir board rest st
    | some guid =>
      if guid ∈ st.existing then
        processUrls fetch wfail dir board rest st
      else
        match _download_decision fetch url guid board with
        | none =>
          -- logged and skipped: per-URL failure isolation
          processUrls fetch wfail dir board rest st
        | some decision =>
          let fname := guid ++ ".txt"
          if wfail dir fname then
            (st, some (.writeErr dir fname))
          else
            processUrls fetch wfail dir board rest
              ⟨st.fs.write dir fname decision.as_text, guid :: st.existing, st.added + 1⟩

/-- The outer for board, urls in grouped.items() loop. existing_guids is a
set, modelled as the deduplicated stem list; summary insertion order is the
board iteration order. -/
def runBoards (fetch : String → Option Soup) (wfail : String → String → Bool)
    (root : String) : List (String × List String) → FS →
    List (String × Nat × Nat) → (FS × List (String × Nat × Nat)) × Option RunErr
  | [], fs, acc => ((fs, acc), none)
  | (board, urls) :: rest, fs, acc =>
    let dir := boardDir root board
    let p := processUrls fetch wfail dir board urls
      ⟨fs, (FS.txtStems fs dir).dedup, 0⟩
    match p.2 with
    | some e => ((p.1.fs, acc), some e)
    | none =>
      runBoards fetch wfail root rest p.1.fs
        (acc ++ [(board, p.1.existing.length, p.1.added)])

/-- grouped.setdefault(board, []).append(url): insertion-ordered group-by. -/
def addToGroup : List (String × List String) → String → String →
    List (String × List String)
  | [], b, u => [(b, [u])]
  | (b', us) :: rest, b, u =>
    if b' = b then (b', us ++ [u]) :: rest else (b', us) :: addToGroup rest b u

/-- The grouping pass of update_decision_knowledge: URLs without a derivable
guid are discarded, the rest are grouped by board in first-seen order. -/
def groupByBoard (urls : List String) : List (String × List String) :=
  urls.foldl (fun acc u =>
    match _extract_guid u with
    | none => acc
    | some _ => addToGroup acc (_derive_board_name u) u) []

/-- sync.py update_decision_knowledge. Returns the final filesystem paired
with either the summary mapping (board, (existing, added)) in insertion
order, or the exception that aborted the run (the filesystem component then
reflects the writes performed before the abort). -/
def update_decision_knowledge (sfetch : String → Nat × XmlElem)
    (fetch : String → Option Soup) (wfail : String → String → Bool) (fuel : Nat)
    (archive_root sitemap_url : String) (fs : FS) :
    FS × Except RunErr (List (String × Nat × Nat)) :=
  match _iterate_sitemap_urls sfetch fuel sitemap_url with
  | .error msg => (fs, .error (.sitemapErr msg))
  | .ok decision_urls =>
    let grouped := groupByBoard decision_urls
    let r := runBoards fetch wfail archive_root grouped fs []
    match r.2 with
    | some e => (r.1.1, .error e)
    | none => (r.1.1, .ok r.1.2)

/-! ## Helper lemmas -/

theorem strMkData (s : String) : String.mk s.data = s := by
  cases s
  rfl

theorem strDataEqNil (s : String) : s.data = [] ↔ s = "" := by
  constructor
  · intro h
    have := strMkData s
    rw [h] at this
    exact this.symm
  · intro h
    rw [h]

theorem digitChar_isDigit (k : Nat) (h : k < 10) : (Nat.digitChar k).isDigit = true := by
  interval_cases k <;> decide

theorem natDigitsAux_digits (fuel : Nat) :
    ∀ n c, c ∈ natDigitsAux fuel n → c.isDigit = true := by
  induction fuel with
  | zero => intro n c hc; simp [natDigitsAux] at hc
  | succ fuel ih =>
    intro n c hc
    rw [natDigitsAux] at hc
    by_cases hn : n < 10
    · rw [if_pos hn] at hc
      simp at hc
      exact hc ▸ digitChar_isDigit n hn
    · rw [if_neg hn] at hc
      rcases List.mem_append.mp hc with h1 | h2
      · exact ih _ c h1
      · simp at h2
        exact h2 ▸ digitChar_isDigit _ (Nat.mod_lt _ (by norm_num))

theorem natDigits_ne_nil (n : Nat) : natDigits n ≠ [] := by
  rw [natDigits, natDigitsAux]
  by_cases hn : n < 10
  · simp [hn]
  · simp [hn]

theorem padZeros_head (w : Nat) (ds : List Char) (hne : ds ≠ [])
    (hd : ∀ c ∈ ds, c.isDigit = true) :
    ∃ c cs, padZeros w ds = c :: cs ∧ c.isDigit = true := by
  rw [padZeros]
  cases hrep : w - ds.length with
  | zero =>
    cases ds with
    | nil => exact absurd rfl hne
    | cons c cs => exact ⟨c, cs, by simp, hd c (by simp)⟩
  | succ k =>
    exact ⟨'0', List.replicate k '0' ++ ds, by simp [List.replicate], by decide⟩

theorem isoformat_ne_unknown (dt : PyDateTime) : dt.isoformat ≠ "Unknown" := by
  intro h
  have hdata : isoChars dt = "Unknown".data := congrArg String.data h
  obtain ⟨c, cs, hpad, hdig⟩ :=
    padZeros_head 4 (natDigits dt.year) (natDigits_ne_nil _)
      (fun c hc => natDigitsAux_digits _ _ c hc)
  rw [isoChars, hpad] at hdata
  have hU : c = 'U' := by
    have := congrArg (fun l => l.head?) hdata
    simpa using this
  rw [hU] at hdig
  exact absurd hdig (by decide)

/-! ## Claim C5 -/

/-- Modelled from the spec, section 4.1: take the URL path, split on "/",
strip empty segments, take the last segment, strip the query string and the
fragment; nothing when the path has no segments or the final segment is empty
after stripping. -/
def extractIdentifierSpec (url : String) : Option String :=
  let segs := (splitOnCharList '/' ((urlparse url).path.data)).filter (fun s => s ≠ [])
  match segs.getLast? with
  | none => none
  | some lastSeg =>
    let c1 := lastSeg.takeWhile (fun ch => ch ≠ '?')
    let c2 := c1.takeWhile (fun ch => ch ≠ '#')
    if c2 = [] then none else some (String.mk c2)

/-- C5: for every URL, _extract_guid returns the last non-empty segment of
the URL path with query string and fragment stripped, and nothing exactly
when the path has no non-empty segments or the final segment is empty after
stripping (the spec-side pipeline extractIdentifierSpec); in particular a URL
ending in .../afgoerelse/ABC-123?x=1#y yields ABC-123. -/
theorem C5_extract_identifier :
    (∀ url, _extract_guid url = extractIdentifierSpec url) ∧
    _extract_guid
        "https://afgoerelsesportalen.dk/naevn/skatteraadet/afgoerelse/ABC-123?x=1#y"
      = some "ABC-123" :=
  ⟨fun _ => rfl, by decide⟩

/-! ## Claim C9 -/

/-- C9: the serialized text of a Decision is exactly the GUID/Board/
Published/Source header lines, a blank line, the title, an underline of =
of the title's length, a blank line, the stripped body and a trailing
newline; the Published field reads Unknown exactly when no timestamp is
present. -/
theorem C9_serialized_format (d : Decision) :
    ∃ pt, d.as_text =
        "GUID: " ++ d.guid ++ "\nBoard: " ++ d.board ++ "\nPublished: " ++ pt ++
          "\nSource: " ++ d.url ++ "\n\n" ++ d.title ++ "\n" ++
          String.mk (List.replicate d.title.length '=') ++ "\n\n" ++
          pyStrip d.body ++ "\n" ∧
      (pt = "Unknown" ↔ d.published = none) := by
  have e0 : ("" : String).data = [] := rfl
  have e1 : ("\nBoard: " : String).data = "\n".data ++ "Board: ".data := rfl
  have e2 : ("\nPublished: " : String).data = "\n".data ++ "Published: ".data := rfl
  have e3 : ("\nSource: " : String).data = "\n".data ++ "Source: ".data := rfl
  have e4 : ("\n\n" : String).data = "\n".data ++ "\n".data := rfl
  cases hp : d.published with
  | none =>
    refine ⟨"Unknown", ?_, by simp⟩
    apply String.ext
    simp [Decision.as_text, hp, pyJoin, String.data_append, e0, e1, e2, e3, e4,
      List.append_assoc]
  | some p =>
    refine ⟨p.isoformat, ?_, iff_of_false (isoformat_ne_unknown p) (by simp)⟩
    apply String.ext
    simp [Decision.as_text, hp, pyJoin, String.data_append, e0, e1, e2, e3, e4,
      List.append_assoc]

/-! ## Claim C4 -/

/-- C4: a sitemap fetch with HTTP status at least 400 makes the walk raise a
SitemapError naming the URL and the status; a root element that is neither
sitemapindex nor urlset raises a SitemapError naming the tag and the URL;
in either case update_decision_knowledge re-raises the walker's error and
leaves the archive untouched (no decision files written). -/
theorem C4_sitemap_fatal :
    (∀ (sfetch : String → Nat × XmlElem) (url : String) (status : Nat)
        (doc : XmlElem) (fuel : Nat), sfetch url = (status, doc) → 400 ≤ status →
      _iterate_sitemap_urls sfetch (fuel + 1) url =
        .error ("Failed to fetch sitemap " ++ url ++ ": HTTP " ++ toString status)) ∧
    (∀ (sfetch : String → Nat × XmlElem) (url : String) (status : Nat)
        (doc : XmlElem) (fuel : Nat), sfetch url = (status, doc) → status < 400 →
      _strip_namespace doc.tag ≠ "sitemapindex" → _strip_namespace doc.tag ≠ "urlset" →
      _iterate_sitemap_urls sfetch (fuel + 1) url =
        .error ("Unsupported sitemap type \x27" ++ _strip_namespace doc.tag ++
          "\x27 at " ++ url)) ∧
    (∀ (sfetch : String → Nat × XmlElem) (fetch : String → Option Soup)
        (wfail : String → String → Bool) (fuel : Nat) (root smUrl : String)
        (fs : FS) (msg : String),
      _iterate_sitemap_urls sfetch fuel smUrl = .error msg →
      update_decision_knowledge sfetch fetch wfail fuel root smUrl fs =
        (fs, .error (.sitemapErr msg))) := by
  refine ⟨?_, ?_, ?_⟩
  · intro sfetch url status doc fuel h hs
    rw [_iterate_sitemap_urls, h]
    simp [hs]
  · intro sfetch url status doc fuel h hlt ht1 ht2
    rw [_iterate_sitemap_urls, h]
    simp only []
    rw [if_neg (by omega), if_neg ht1, if_neg ht2]
  · intro sfetch fetch wfail fuel root smUrl fs msg h
    rw [update_decision_knowledge, h]

/-- C4 witness objects: a sitemap endpoint answering 500, and one answering
200 with an unrecognised root element. -/
def sfetch500 : String → Nat × XmlElem := fun _ => (500, .node "urlset" none [])

def sfetchBadRoot : String → Nat × XmlElem := fun _ => (200, .node "foo" none [])

/-- C4 witness: the three parts of C4_sitemap_fatal at concrete inputs. -/
theorem C4_sitemap_fatal_witness :
    _iterate_sitemap_urls sfetch500 1 "https://x.dk/sitemap.xml" =
      .error ("Failed to fetch sitemap " ++ "https://x.dk/sitemap.xml" ++
        ": HTTP " ++ toString 500) ∧
    _iterate_sitemap_urls sfetchBadRoot 1 "u" =
      .error ("Unsupported sitemap type \x27" ++
        _strip_namespace (XmlElem.node "foo" none []).tag ++ "\x27 at " ++ "u") ∧
    update_decision_knowledge sfetch500 (fun _ => none) (fun _ _ => false) 1 "r" "s" [] =
      ([], .error (.sitemapErr ("Failed to fetch sitemap " ++ "s" ++
        ": HTTP " ++ toString 500))) :=
  ⟨C4_sitemap_fatal.1 sfetch500 "https://x.dk/sitemap.xml" 500 (.node "urlset" none []) 0
      rfl (by norm_num),
   C4_sitemap_fatal.2.1 sfetchBadRoot "u" 200 (.node "foo" none []) 0 rfl (by norm_num)
      (by decide) (by decide),
   C4_sitemap_fatal.2.2 sfetch500 (fun _ => none) (fun _ _ => false) 1 "r" "s" [] _
      (C4_sitemap_fatal.1 sfetch500 "s" 500 (.node "urlset" none []) 0 rfl (by norm_num))⟩

/-! ## Claim C6 -/

theorem dropWhile_head_false (p : Char → Bool) :
    ∀ (l : List Char) c cs, List.dropWhile p l = c :: cs → p c = false := by
  intro l
  induction l with
  | nil => intro c cs h; cases h
  | cons a as ih =>
    intro c cs h
    by_cases ha : p a
    · rw [List.dropWhile_cons_of_pos ha] at h
      exact ih c cs h
    · rw [List.dropWhile_cons_of_neg ha] at h
      cases h
      simpa using ha

theorem stripList_has_nonspace (l : List Char) (h : stripList l ≠ []) :
    ∃ c ∈ stripList l, pyIsSpace c = false := by
  rw [stripList] at h ⊢
  cases hy : List.dropWhile pyIsSpace (List.dropWhile pyIsSpace l).reverse with
  | nil => rw [hy] at h; simp at h
  | cons c cs =>
    refine ⟨c, ?_, dropWhile_head_false pyIsSpace _ c cs hy⟩
    simp

theorem splitWSAux_ne_nil :
    ∀ (l : List Char) (cur : List Char),
      (cur ≠ [] ∨ ∃ c ∈ l, pyIsSpace c = false) → splitWSAux cur l ≠ [] := by
  intro l
  induction l with
  | nil =>
    intro cur h
    rcases h with h | h
    · simp [splitWSAux, h]
    · simp at h
  | cons c cs ih =>
    intro cur h
    rw [splitWSAux]
    by_cases hc : pyIsSpace c
    · rw [if_pos hc]
      by_cases hcur : cur = []
      · rw [if_pos hcur]
        apply ih
        right
        rcases h with h | ⟨c', hc', hns⟩
        · exact absurd hcur h
        · rcases List.mem_cons.mp hc' with rfl | hmem
          · rw [hns] at hc; cases hc
          · exact ⟨c', hmem, hns⟩
      · rw [if_neg hcur]
        simp
    · rw [if_neg hc]
      apply ih
      left
      simp

theorem splitWSAux_mem_ne_nil :
    ∀ (l : List Char) (cur : List Char) w, w ∈ splitWSAux cur l → w ≠ [] := by
  intro l
  induction l with
  | nil =>
    intro cur w hw
    rw [splitWSAux] at hw
    by_cases hcur : cur = []
    · rw [if_pos hcur] at hw; cases hw
    · rw [if_neg hcur] at hw
      simp at hw
      simp [hw, hcur]
  | cons c cs ih =>
    intro cur w hw
    rw [splitWSAux] at hw
    by_cases hc : pyIsSpace c
    · rw [if_pos hc] at hw
      by_cases hcur : cur = []
      · rw [if_pos hcur] at hw
        exact ih [] w hw
      · rw [if_neg hcur] at hw
        rcases List.mem_cons.mp hw with rfl | hmem
        · simp [hcur]
        · exact ih [] w hmem
    · rw [if_neg hc] at hw
      exact ih (c :: cur) w hw

theorem joinWithSpace_ne_nil (ws : List (List Char)) (hne : ws ≠ [])
    (hall : ∀ w ∈ ws, w ≠ []) : joinWithSpace ws ≠ [] := by
  match ws with
  | [] => exact absurd rfl hne
  | [w] => simpa [joinWithSpace] using hall w (by simp)
  | w :: w2 :: rest => simp [joinWithSpace]

/-- C6 counterexample: the claim asserts deriveBoard always returns a
non-empty string, but for a URL with an empty host and no path segments the
host fallback is itself empty (checked against CPython: the source returns
"" on this input). -/
theorem C6_counterexample : _derive_board_name "https://" = "" := by decide

/-- C6 amended: _derive_board_name is total by construction and falls back to
the URL's host; its result is non-empty whenever the parsed host is
non-empty (when the host is empty and no slug survives cleaning, the result
is the empty host string, contradicting the unconditional non-emptiness
claim). -/
theorem boardTail_ne_empty (netloc : String) (m : List Char) (h : netloc ≠ "") :
    (if stripList m = [] then netloc
     else String.mk (joinWithSpace ((pySplitWS (stripList m)).map pyCapitalize))) ≠ "" := by
  split
  · exact h
  · next hne =>
    intro heq
    have hjoin : joinWithSpace ((pySplitWS (stripList m)).map pyCapitalize) = [] :=
      congrArg String.data heq
    apply joinWithSpace_ne_nil _ ?_ ?_ hjoin
    · intro hmap
      have hsplit : pySplitWS (stripList m) = [] := List.map_eq_nil_iff.mp hmap
      exact splitWSAux_ne_nil _ []
        (Or.inr (stripList_has_nonspace _ hne)) hsplit
    · intro w hw
      rcases List.mem_map.mp hw with ⟨w', hw', rfl⟩
      have hw'ne : w' ≠ [] := splitWSAux_mem_ne_nil _ [] w' hw'
      cases w' with
      | nil => exact absurd rfl hw'ne
      | cons a as => simp [pyCapitalize]

theorem C6_board_nonempty (url : String) (h : (urlparse url).netloc ≠ "") :
    _derive_board_name url ≠ "" := by
  rw [_derive_board_name]
  dsimp only
  exact boardTail_ne_empty (urlparse url).netloc _ h

/-- C6 witness: the amended claim applied to a URL with a non-empty host. -/
theorem C6_board_nonempty_witness :
    (urlparse "https://x.dk").netloc ≠ "" ∧ _derive_board_name "https://x.dk" ≠ "" :=
  ⟨by decide, C6_board_nonempty "https://x.dk" (by decide)⟩

/-! ## Claim C8 -/

/-- A page whose og:title meta has the whitespace-only content " " and whose
title element reads T2. -/
def c8Soup : Soup :=
  { metaOgTitle := some (some " "), titleString := some (some "T2"), h1Text := none,
    published := none, articleText := none, mainText := none, contentDivText := none,
    fullText := "" }

/-- C8 counterexample: the claim says the extracted title is the first
non-empty candidate in og/title/h1 order. On a page whose og:title content is
the non-empty string " " and whose title element is T2, the code returns the
stripped og content "" (neither " " nor "T2") and the caller then substitutes
the synthetic fallback instead of falling through to T2. -/
theorem C8_counterexample :
    _extract_title c8Soup = some "" ∧
    (_download_decision (fun _ => some c8Soup) "u" "G1" "B").map Decision.title
      = some "Afgørelse G1" ∧
    ("" : String) ≠ " " ∧ ("" : String) ≠ "T2" := by decide

/-- C8 amended: the candidates are tried in og:title/title/h1 order and the
first one whose raw value is present and non-empty wins, its value returned
stripped; when every raw candidate is absent or empty the extractor yields
none; and the caller substitutes the synthetic fallback "Afgørelse <guid>"
whenever the extractor yields none or an empty (e.g. whitespace-only)
title. -/
theorem C8_title_precedence :
    (∀ (s : Soup) (c : String), s.metaOgTitle = some (some c) → c ≠ "" →
      _extract_title s = some (pyStrip c)) ∧
    (∀ (s : Soup) (t : String),
      (∀ c, s.metaOgTitle = some (some c) → c = "") →
      s.titleString = some (some t) → t ≠ "" →
      _extract_title s = some (pyStrip t)) ∧
    (∀ (s : Soup) (t : String),
      (∀ c, s.metaOgTitle = some (some c) → c = "") →
      (∀ u, s.titleString = some (some u) → u = "") →
      s.h1Text = some t → t ≠ "" →
      _extract_title s = some t) ∧
    (∀ s : Soup,
      (∀ c, s.metaOgTitle = some (some c) → c = "") →
      (∀ u, s.titleString = some (some u) → u = "") →
      (∀ v, s.h1Text = some v → v = "") →
      _extract_title s = none) ∧
    (∀ (s : Soup) (fetch : String → Option Soup) (url guid board : String),
      fetch url = some s →
      (_extract_title s = none ∨ _extract_title s = some "") →
      (_download_decision fetch url guid board).map Decision.title
        = some ("Afgørelse " ++ guid)) := by
  have hog : ∀ (s : Soup), (∀ c, s.metaOgTitle = some (some c) → c = "") →
      (match s.metaOgTitle with
       | some (some c) => if c = "" then none else some (pyStrip c)
       | _ => none) = (none : Option String) := by
    intro s hc
    cases hmeta : s.metaOgTitle with
    | none => rfl
    | some a =>
      cases a with
      | none => rfl
      | some c => simp [hc c hmeta]
  have hti : ∀ (s : Soup), (∀ u, s.titleString = some (some u) → u = "") →
      (match s.titleString with
       | some (some t) => if t = "" then none else some (pyStrip t)
       | _ => none) = (none : Option String) := by
    intro s hu
    cases hts : s.titleString with
    | none => rfl
    | some a =>
      cases a with
      | none => rfl
      | some t => simp [hu t hts]
  refine ⟨?_, ?_, ?_, ?_, ?_⟩
  · intro s c hmeta hc
    rw [_extract_title]
    simp [hmeta, hc]
  · intro s t hogf hts ht
    rw [_extract_title]
    rw [hog s hogf]
    simp [hts, ht]
  · intro s t hogf htif hh1 ht
    rw [_extract_title]
    rw [hog s hogf, hti s htif]
    simp [hh1, ht]
  · intro s hogf htif hh1f
    rw [_extract_title]
    rw [hog s hogf, hti s htif]
    cases hh : s.h1Text with
    | none => rfl
    | some v => simp [hh1f v hh]
  · intro s fetch url guid board hf hti
    rw [_download_decision, hf]
    rcases hti with h | h <;> simp [pyOrStr, h]

/-- C8 witness: the amended precedence applied at concrete pages — og wins
when non-empty (the T1/T2 example of the claim), title wins when og is
absent, h1 wins when both are absent, all-absent yields none, and the
synthetic fallback fires on an empty extraction. -/
theorem C8_title_precedence_witness :
    _extract_title ⟨some (some "T1"), none, some "T2", none, none, none, none, ""⟩
      = some (pyStrip "T1") ∧
    _extract_title ⟨none, some (some " T2 "), none, none, none, none, none, ""⟩
      = some (pyStrip " T2 ") ∧
    _extract_title ⟨none, none, some "H1", none, none, none, none, ""⟩ = some "H1" ∧
    _extract_title ⟨none, none, none, none, none, none, none, ""⟩ = none ∧
    (_download_decision (fun _ => some ⟨none, none, none, none, none, none, none, ""⟩)
        "u" "G2" "B").map Decision.title = some ("Afgørelse " ++ "G2") :=
  ⟨C8_title_precedence.1 _ "T1" rfl (by decide),
   C8_title_precedence.2.1 _ " T2 " (fun c h => by cases h) rfl (by decide),
   C8_title_precedence.2.2.1 _ "H1" (fun c h => by cases h) (fun u h => by cases h)
     rfl (by decide),
   C8_title_precedence.2.2.2.1 _ (fun c h => by cases h) (fun u h => by cases h)
     (fun v h => by cases h),
   C8_title_precedence.2.2.2.2 _ _ "u" "G2" "B" rfl
     (Or.inl (C8_title_precedence.2.2.2.1 _ (fun c h => by cases h)
       (fun u h => by cases h) (fun v h => by cases h)))⟩

/-! ## Claim C7 -/

/-- A urlset document whose loc entries carry the given texts. -/
def urlsetDoc (ls : List String) : XmlElem :=
  .node "urlset" none (ls.map (fun t => .node "loc" (some t) []))

/-- A sitemapindex document whose loc entries carry the given texts. -/
def sitemapIndexDoc (ls : List String) : XmlElem :=
  .node "sitemapindex" none (ls.map (fun t => .node "loc" (some t) []))

theorem descendantsList_locs (ls : List String) :
    XmlElem.descendants.descendantsList (ls.map (fun t => .node "loc" (some t) [])) =
      ls.map (fun t => XmlElem.node "loc" (some t) []) := by
  induction ls with
  | nil => rfl
  | cons t ts ih =>
    simp [XmlElem.descendants.descendantsList, XmlElem.descendants, ih]

theorem findLocs_locDoc (tag : String) (ls : List String) :
    findLocs (.node tag none (ls.map (fun t => .node "loc" (some t) []))) =
      ls.map (fun t => XmlElem.node "loc" (some t) []) := by
  rw [findLocs, XmlElem.descendants, descendantsList_locs]
  rw [List.filter_eq_self.mpr]
  intro e he
  rcases List.mem_map.mp he with ⟨t, _, rfl⟩
  rfl

theorem urlsetPipeline (l : List String) :
    (l.filterMap fun t =>
        if t = "" then none
        else
          let link := pyStrip t
          if _looks_like_decision link then some link else none) =
      (l.map pyStrip).filter _looks_like_decision := by
  induction l with
  | nil => rfl
  | cons t ts ih =>
    by_cases ht : t = ""
    · subst ht
      have h1 : pyStrip "" = "" := rfl
      have h2 : _looks_like_decision "" = false := rfl
      simp [List.filterMap_cons, ih, h1, h2]
    · by_cases hl : _looks_like_decision (pyStrip t)
      · simp [List.filterMap_cons, ht, hl, ih]
      · simp [List.filterMap_cons, ht, hl, ih]

theorem iterate_urlset (sfetch : String → Nat × XmlElem) (fuel : Nat) (url : String)
    (l : List String) (h : sfetch url = (200, urlsetDoc l)) :
    _iterate_sitemap_urls sfetch (fuel + 1) url =
      .ok ((l.map pyStrip).filter _looks_like_decision) := by
  rw [_iterate_sitemap_urls, h]
  have h400 : ¬((200, urlsetDoc l).1 ≥ 400) := by norm_num
  rw [if_neg h400]
  have htag : _strip_namespace (200, urlsetDoc l).2.tag = "urlset" := rfl
  rw [htag]
  rw [if_neg (by decide : ¬("urlset" : String) = "sitemapindex"),
    if_pos (rfl : ("urlset" : String) = "urlset")]
  rw [show (200, urlsetDoc l).2 = urlsetDoc l from rfl, urlsetDoc, findLocs_locDoc,
    List.filterMap_map]
  refine congrArg Except.ok ?_
  have hcomp : ∀ t : String,
      ((fun loc : XmlElem =>
          match loc.text with
          | some t =>
            if t = "" then none
            else
              let link := pyStrip t
              if _looks_like_decision link then some link else none
          | none => none) ∘ (fun t => XmlElem.node "loc" (some t) [])) t =
        (fun t : String =>
          if t = "" then none
          else
            let link := pyStrip t
            if _looks_like_decision link then some link else none) t := fun t => rfl
  rw [funext hcomp, urlsetPipeline]

theorem iterate_index_two (sfetch : String → Nat × XmlElem) (fuel : Nat)
    (s u1 u2 : String) (l1 l2 : List String)
    (hs : sfetch s = (200, sitemapIndexDoc [u1, u2]))
    (h1 : sfetch u1 = (200, urlsetDoc l1)) (h2 : sfetch u2 = (200, urlsetDoc l2))
    (hs1 : pyStrip u1 = u1) (hn1 : u1 ≠ "") (hs2 : pyStrip u2 = u2) (hn2 : u2 ≠ "") :
    _iterate_sitemap_urls sfetch (fuel + 2) s =
      .ok (((l1.map pyStrip).filter _looks_like_decision) ++
           ((l2.map pyStrip).filter _looks_like_decision)) := by
  have e1 : stripList u1.data ≠ [] := by
    intro he
    apply hn1
    have := congrArg String.data hs1
    rw [pyStrip] at this
    rw [← strDataEqNil]
    rw [← this, he]
  have e2 : stripList u2.data ≠ [] := by
    intro he
    apply hn2
    have := congrArg String.data hs2
    rw [pyStrip] at this
    rw [← strDataEqNil]
    rw [← this, he]
  rw [show fuel + 2 = (fuel + 1) + 1 from rfl]
  rw [_iterate_sitemap_urls, hs]
  rw [if_neg (by norm_num : ¬((200, sitemapIndexDoc [u1, u2]).1 ≥ 400))]
  have htag : _strip_namespace (200, sitemapIndexDoc [u1, u2]).2.tag = "sitemapindex" := rfl
  rw [htag]
  rw [if_pos (rfl : ("sitemapindex" : String) = "sitemapindex")]
  rw [show (200, sitemapIndexDoc [u1, u2]).2 = sitemapIndexDoc [u1, u2] from rfl,
    sitemapIndexDoc, findLocs_locDoc]
  have hchild :
      ([u1, u2].map (fun t => XmlElem.node "loc" (some t) [])).filterMap (fun child =>
        match child.text with
        | some t => if stripList t.data = [] then none else some (pyStrip t)
        | none => none) = [u1, u2] := by
    simp [List.filterMap_cons, XmlElem.text, e1, e2, hs1, hs2]
  rw [hchild]
  simp only [List.foldlM, bind, Except.bind, iterate_urlset sfetch fuel u1 l1 h1,
    iterate_urlset sfetch fuel u2 l2 h2, Except.map, List.nil_append, pure, Except.pure]

/-- A URL whose path has no decision marker, but whose query string contains
one. -/
def c7Url : String := "https://x.dk/sider/info?next=/afgoerelse/a"

def c7Sfetch : String → Nat × XmlElem := fun _ => (200, urlsetDoc [c7Url])

/-- C7 counterexample: the claim says a urlset entry is yielded iff its PATH
contains a decision-marker segment. This entry's path is /sider/info (no
marker), yet the walker yields it, because the source tests the marker
substring against the whole URL and this URL's query string contains
/afgoerelse/. -/
theorem C7_counterexample :
    _iterate_sitemap_urls c7Sfetch 1 "s" = .ok [c7Url] ∧
    listContains "/afgoerelse/".data (lowerList (urlparse c7Url).path.data) = false ∧
    listContains "/nyhed/".data (lowerList (urlparse c7Url).path.data) = false :=
  ⟨by rfl, by decide, by decide⟩

/-- C7 amended: a urlset entry is yielded iff the whole lowercased URL
(path, query or fragment) contains /afgoerelse/ or /nyhed/ as a substring —
the walker yields exactly the stripped loc texts passing _looks_like_decision
— and over a two-level index the stream is the concatenation of the two leaf
documents' qualifying entries in document order. -/
theorem C7_sitemap_walk :
    (∀ (sfetch : String → Nat × XmlElem) (fuel : Nat) (url : String) (l : List String),
      sfetch url = (200, urlsetDoc l) →
      _iterate_sitemap_urls sfetch (fuel + 1) url =
        .ok ((l.map pyStrip).filter _looks_like_decision)) ∧
    (∀ (sfetch : String → Nat × XmlElem) (fuel : Nat) (s u1 u2 : String)
        (l1 l2 : List String),
      sfetch s = (200, sitemapIndexDoc [u1, u2]) →
      sfetch u1 = (200, urlsetDoc l1) → sfetch u2 = (200, urlsetDoc l2) →
      pyStrip u1 = u1 → u1 ≠ "" → pyStrip u2 = u2 → u2 ≠ "" →
      _iterate_sitemap_urls sfetch (fuel + 2) s =
        .ok (((l1.map pyStrip).filter _looks_like_decision) ++
             ((l2.map pyStrip).filter _looks_like_decision))) :=
  ⟨iterate_urlset, iterate_index_two⟩

/-- C7 witness sitemap tree: an index referencing two leaf urlsets. -/
def c7WSfetch : String → Nat × XmlElem := fun u =>
  if u = "s" then (200, sitemapIndexDoc ["l1", "l2"])
  else if u = "l1" then
    (200, urlsetDoc ["https://x.dk/afgoerelse/A1", "https://x.dk/om-os"])
  else if u = "l2" then (200, urlsetDoc ["https://x.dk/nyhed/N1"])
  else (200, urlsetDoc [])

/-- C7 witness: both parts of C7_sitemap_walk at concrete inputs. -/
theorem C7_sitemap_walk_witness :
    _iterate_sitemap_urls c7WSfetch 1 "l1" =
      .ok ((["https://x.dk/afgoerelse/A1", "https://x.dk/om-os"].map pyStrip).filter
        _looks_like_decision) ∧
    _iterate_sitemap_urls c7WSfetch 2 "s" =
      .ok (((["https://x.dk/afgoerelse/A1", "https://x.dk/om-os"].map pyStrip).filter
              _looks_like_decision) ++
           ((["https://x.dk/nyhed/N1"].map pyStrip).filter _looks_like_decision)) :=
  ⟨C7_sitemap_walk.1 c7WSfetch 0 "l1" _ rfl,
   C7_sitemap_walk.2 c7WSfetch 0 "s" "l1" "l2" _ _ rfl rfl rfl (by decide) (by decide)
     (by decide) (by decide)⟩

/-! ## Filesystem lemmas -/

theorem find?_filter_keep {α : Type} (l : List α) (p q : α → Bool)
    (h : ∀ a, q a = true → p a = true) :
    (l.filter p).find? q = l.find? q := by
  induction l with
  | nil => rfl
  | cons a as ih =>
    by_cases hp : p a = true
    · rw [List.filter_cons_of_pos hp]
      by_cases hq : q a = true
      · rw [List.find?_cons_of_pos _ hq, List.find?_cons_of_pos _ hq]
      · rw [List.find?_cons_of_neg _ (by simpa using hq),
          List.find?_cons_of_neg _ (by simpa using hq), ih]
    · rw [List.filter_cons_of_neg (by simpa using hp)]
      have hq : ¬ q a = true := fun hqa => hp (h a hqa)
      rw [List.find?_cons_of_neg _ (by simpa using hq), ih]

theorem FS.read_write_ne (fs : FS) (d n c d' n' : String) (h : ¬(d = d' ∧ n = n')) :
    FS.read (FS.write fs d n c) d' n' = FS.read fs d' n' := by
  rw [FS.read, FS.write, FS.read]
  rw [List.find?_cons_of_neg _ (by simpa using h)]
  rw [find?_filter_keep]
  intro e he
  simp only [decide_eq_true_eq] at he ⊢
  rintro ⟨rfl, rfl⟩
  exact h ⟨he.1, he.2⟩

theorem FS.read_write_self (fs : FS) (d n c : String) :
    FS.read (FS.write fs d n c) d n = some c := by
  rw [FS.read, FS.write]
  rw [List.find?_cons_of_pos _ (by simp)]
  rfl

theorem lastIdxOf_append (t : Char) (l1 l2 : List Char) :
    lastIdxOf t (l1 ++ l2) =
      match lastIdxOf t l2 with
      | some i => some (l1.length + i)
      | none => lastIdxOf t l1 := by
  induction l1 with
  | nil =>
    cases h : lastIdxOf t l2 <;> simp [h, lastIdxOf]
  | cons c cs ih =>
    rw [List.cons_append, lastIdxOf, ih]
    cases h2 : lastIdxOf t l2 with
    | none => rfl
    | some i => simp [Nat.add_assoc, Nat.add_comm i 1, Nat.add_left_comm]

theorem pyStem_append_txt (g : String) (hg : g ≠ "") : pyStem (g ++ ".txt") = g := by
  have hlen : 0 < g.data.length := by
    cases hd : g.data with
    | nil => exact absurd ((strDataEqNil g).mp hd) hg
    | cons a as => simp
  have hdata : (g ++ ".txt").data = g.data ++ ['.', 't', 'x', 't'] := rfl
  have h3 : lastIdxOf '.' (g.data ++ ['.', 't', 'x', 't']) = some (g.data.length + 0) := by
    rw [lastIdxOf_append]
    rfl
  have hcond : 0 < g.data.length + 0 ∧
      g.data.length + 0 < (g.data ++ ['.', 't', 'x', 't']).length - 1 := by
    simp only [List.length_append, List.length_cons, List.length_nil]
    omega
  rw [pyStem, hdata]
  simp only [h3]
  rw [if_pos hcond]
  have htake : (g.data ++ ['.', 't', 'x', 't']).take (g.data.length + 0) = g.data := by
    simp [List.take_left]
  rw [htake]

theorem txt_isSuffixOf_append (g : String) :
    List.isSuffixOf ".txt".data (g ++ ".txt").data = true := by
  rw [String.data_append]
  simp

theorem mem_txtStems_write (fs : FS) (d n c d' x : String)
    (hn : List.isSuffixOf ".txt".data n.data = true) :
    x ∈ FS.txtStems (FS.write fs d n c) d' ↔
      (d' = d ∧ x = pyStem n) ∨ x ∈ FS.txtStems fs d' := by
  rw [FS.txtStems, FS.write, FS.txtStems]
  constructor
  · intro hx
    rcases List.mem_map.mp hx with ⟨e, he, rfl⟩
    rcases List.mem_filter.mp he with ⟨he2, hpred⟩
    rcases List.mem_cons.mp he2 with rfl | he3
    · left
      simp only [Bool.and_eq_true, decide_eq_true_eq] at hpred
      exact ⟨hpred.1.symm, rfl⟩
    · right
      rcases List.mem_filter.mp he3 with ⟨he4, _⟩
      exact List.mem_map.mpr ⟨e, List.mem_filter.mpr ⟨he4, hpred⟩, rfl⟩
  · intro h
    rcases h with ⟨hd, hxe⟩ | hx
    · refine List.mem_map.mpr ⟨⟨d, n, c⟩, List.mem_filter.mpr
        ⟨List.mem_cons_self _ _, ?_⟩, ?_⟩
      · simp [hd, hn]
      · exact hxe.symm
    · rcases List.mem_map.mp hx with ⟨e, he, rfl⟩
      rcases List.mem_filter.mp he with ⟨he2, hpred⟩
      simp only [Bool.and_eq_true, decide_eq_true_eq] at hpred
      by_cases hkeep : e.dir = d ∧ e.name = n
      · refine List.mem_map.mpr ⟨⟨d, n, c⟩, List.mem_filter.mpr
          ⟨List.mem_cons_self _ _, ?_⟩, ?_⟩
        · have hd' : d = d' := hkeep.1 ▸ hpred.1
          simp [hd', hn]
        · rw [← hkeep.2]
      · refine List.mem_map.mpr ⟨e, List.mem_filter.mpr ⟨?_, ?_⟩, rfl⟩
        · refine List.mem_cons_of_mem _ (List.mem_filter.mpr ⟨he2, ?_⟩)
          simp only [decide_eq_true_eq]
          exact hkeep
        · simp [hpred.1, hpred.2]

/-! ## processUrls step equations -/

theorem processUrls_nil (fetch : String → Option Soup) (wfail : String → String → Bool)
    (dir board : String) (st : BState) :
    processUrls fetch wfail dir board [] st = (st, none) := rfl

theorem processUrls_cons_noguid (fetch : String → Option Soup)
    (wfail : String → String → Bool) (dir board url : String) (rest : List String)
    (st : BState) (hg : _extract_guid url = none) :
    processUrls fetch wfail dir board (url :: rest) st =
      processUrls fetch wfail dir board rest st := by
  rw [processUrls, hg]

theorem processUrls_cons_mem (fetch : String → Option Soup)
    (wfail : String → String → Bool) (dir board url : String) (rest : List String)
    (st : BState) (g : String) (hg : _extract_guid url = some g)
    (hmem : g ∈ st.existing) :
    processUrls fetch wfail dir board (url :: rest) st =
      processUrls fetch wfail dir board rest st := by
  rw [processUrls, hg]
  simp [hmem]

theorem processUrls_cons_fetchfail (fetch : String → Option Soup)
    (wfail : String → String → Bool) (dir board url : String) (rest : List String)
    (st : BState) (g : String) (hg : _extract_guid url = some g)
    (hmem : g ∉ st.existing) (hf : fetch url = none) :
    processUrls fetch wfail dir board (url :: rest) st =
      processUrls fetch wfail dir board rest st := by
  rw [processUrls, hg]
  simp [hmem, _download_decision, hf]

theorem processUrls_cons_wfail (fetch : String → Option Soup)
    (wfail : String → String → Bool) (dir board url : String) (rest : List String)
    (st : BState) (g : String) (dec : Decision) (hg : _extract_guid url = some g)
    (hmem : g ∉ st.existing) (hf : _download_decision fetch url g board = some dec)
    (hw : wfail dir (g ++ ".txt") = true) :
    processUrls fetch wfail dir board (url :: rest) st =
      (st, some (.writeErr dir (g ++ ".txt"))) := by
  rw [processUrls, hg]
  simp [hmem, hf, hw]

theorem processUrls_cons_write (fetch : String → Option Soup)
    (wfail : String → String → Bool) (dir board url : String) (rest : List String)
    (st : BState) (g : String) (dec : Decision) (hg : _extract_guid url = some g)
    (hmem : g ∉ st.existing) (hf : _download_decision fetch url g board = some dec)
    (hw : wfail dir (g ++ ".txt") = false) :
    processUrls fetch wfail dir board (url :: rest) st =
      processUrls fetch wfail dir board rest
        ⟨st.fs.write dir (g ++ ".txt") dec.as_text, g :: st.existing, st.added + 1⟩ := by
  rw [processUrls, hg]
  simp [hmem, hf, hw]

theorem download_none_iff (fetch : String → Option Soup) (url g board : String) :
    _download_decision fetch url g board = none ↔ fetch url = none := by
  rw [_download_decision]
  cases hf : fetch url <;> simp

/-! ## processUrls invariants -/

/-- The in-memory existing_guids set stays in sync with the stems of the .txt
files of the board directory. -/
def SyncInv (dir : String) (st : BState) : Prop :=
  ∀ x, x ∈ st.existing ↔ x ∈ FS.txtStems st.fs dir

theorem extract_guid_ne_empty (url g : String) (hg : _extract_guid url = some g) :
    g ≠ "" := by
  rw [_extract_guid] at hg
  dsimp only at hg
  split at hg
  · cases hg
  · split at hg
    · cases hg
    · next hne =>
      cases hg
      intro hemp
      have : _ = ("" : String).data := congrArg String.data hemp
      exact hne this

theorem read_some_mem_stems (fs : FS) (d n c : String) (h : FS.read fs d n = some c)
    (hn : List.isSuffixOf ".txt".data n.data = true) :
    pyStem n ∈ FS.txtStems fs d := by
  rw [FS.read] at h
  cases hf : fs.find? (fun e => decide (e.dir = d ∧ e.name = n)) with
  | none => rw [hf] at h; cases h
  | some e =>
    have hmem : e ∈ fs := List.mem_of_find?_eq_some hf
    have hpred := List.find?_some hf
    simp only [decide_eq_true_eq] at hpred
    rw [FS.txtStems]
    refine List.mem_map.mpr ⟨e, List.mem_filter.mpr ⟨hmem, ?_⟩, ?_⟩
    · simp [hpred.1, hpred.2, hn]
    · rw [hpred.2]

theorem sync_write_step (dir : String) (st : BState) (g content : String) (hg : g ≠ "")
    (hsync : SyncInv dir st) :
    SyncInv dir ⟨st.fs.write dir (g ++ ".txt") content, g :: st.existing, st.added + 1⟩ := by
  intro x
  simp only []
  rw [List.mem_cons]
  rw [mem_txtStems_write _ _ _ _ _ _ (txt_isSuffixOf_append g)]
  rw [pyStem_append_txt g hg]
  constructor
  · rintro (rfl | hx)
    · exact Or.inl ⟨rfl, rfl⟩
    · exact Or.inr ((hsync x).mp hx)
  · rintro (⟨_, rfl⟩ | hx)
    · exact Or.inl rfl
    · exact Or.inr ((hsync x).mpr hx)

theorem processUrls_existing_mono (fetch : String → Option Soup)
    (wfail : String → String → Bool) (dir board : String) :
    ∀ (urls : List String) (st : BState) (x : String), x ∈ st.existing →
      x ∈ (processUrls fetch wfail dir board urls st).1.existing := by
  intro urls
  induction urls with
  | nil => intro st x hx; rw [processUrls_nil]; exact hx
  | cons url rest ih =>
    intro st x hx
    cases hg : _extract_guid url with
    | none =>
      rw [processUrls_cons_noguid _ _ _ _ _ _ _ hg]
      exact ih st x hx
    | some g =>
      by_cases hmem : g ∈ st.existing
      · rw [processUrls_cons_mem _ _ _ _ _ _ _ g hg hmem]
        exact ih st x hx
      · cases hdl : _download_decision fetch url g board with
        | none =>
          rw [processUrls_cons_fetchfail _ _ _ _ _ _ _ g hg hmem
            ((download_none_iff fetch url g board).mp hdl)]
          exact ih st x hx
        | some dec =>
          cases hw : wfail dir (g ++ ".txt") with
          | true =>
            rw [processUrls_cons_wfail _ _ _ _ _ _ _ g dec hg hmem hdl hw]
            exact hx
          | false =>
            rw [processUrls_cons_write _ _ _ _ _ _ _ g dec hg hmem hdl hw]
            exact ih _ x (List.mem_cons_of_mem _ hx)

theorem processUrls_stems_mono (fetch : String → Option Soup)
    (wfail : String → String → Bool) (dir board : String) :
    ∀ (urls : List String) (st : BState) (d' x : String),
      x ∈ FS.txtStems st.fs d' →
      x ∈ FS.txtStems (processUrls fetch wfail dir board urls st).1.fs d' := by
  intro urls
  induction urls with
  | nil => intro st d' x hx; rw [processUrls_nil]; exact hx
  | cons url rest ih =>
    intro st d' x hx
    cases hg : _extract_guid url with
    | none =>
      rw [processUrls_cons_noguid _ _ _ _ _ _ _ hg]
      exact ih st d' x hx
    | some g =>
      by_cases hmem : g ∈ st.existing
      · rw [processUrls_cons_mem _ _ _ _ _ _ _ g hg hmem]
        exact ih st d' x hx
      · cases hdl : _download_decision fetch url g board with
        | none =>
          rw [processUrls_cons_fetchfail _ _ _ _ _ _ _ g hg hmem
            ((download_none_iff fetch url g board).mp hdl)]
          exact ih st d' x hx
        | some dec =>
          cases hw : wfail dir (g ++ ".txt") with
          | true =>
            rw [processUrls_cons_wfail _ _ _ _ _ _ _ g dec hg hmem hdl hw]
            exact hx
          | false =>
            rw [processUrls_cons_write _ _ _ _ _ _ _ g dec hg hmem hdl hw]
            apply ih
            exact (mem_txtStems_write _ _ _ _ _ _ (txt_isSuffixOf_append g)).mpr
              (Or.inr hx)

theorem processUrls_sync (fetch : String → Option Soup)
    (wfail : String → String → Bool) (dir board : String) :
    ∀ (urls : List String) (st : BState), SyncInv dir st →
      SyncInv dir (processUrls fetch wfail dir board urls st).1 := by
  intro urls
  induction urls with
  | nil => intro st hs; rw [processUrls_nil]; exact hs
  | cons url rest ih =>
    intro st hs
    cases hg : _extract_guid url with
    | none =>
      rw [processUrls_cons_noguid _ _ _ _ _ _ _ hg]
      exact ih st hs
    | some g =>
      by_cases hmem : g ∈ st.existing
      · rw [processUrls_cons_mem _ _ _ _ _ _ _ g hg hmem]
        exact ih st hs
      · cases hdl : _download_decision fetch url g board with
        | none =>
          rw [processUrls_cons_fetchfail _ _ _ _ _ _ _ g hg hmem
            ((download_none_iff fetch url g board).mp hdl)]
          exact ih st hs
        | some dec =>
          cases hw : wfail dir (g ++ ".txt") with
          | true =>
            rw [processUrls_cons_wfail _ _ _ _ _ _ _ g dec hg hmem hdl hw]
            exact hs
          | false =>
            rw [processUrls_cons_write _ _ _ _ _ _ _ g dec hg hmem hdl hw]
            exact ih _ (sync_write_step dir st g dec.as_text
              (extract_guid_ne_empty url g hg) hs)

theorem processUrls_known (fetch : String → Option Soup)
    (wfail : String → String → Bool) (dir board : String) :
    ∀ (urls : List String) (st : BState),
      (processUrls fetch wfail dir board urls st).2 = none →
      ∀ u ∈ urls, ∀ g, _extract_guid u = some g →
        g ∈ (processUrls fetch wfail dir board urls st).1.existing ∨ fetch u = none := by
  intro urls
  induction urls with
  | nil => intro st _ u hu; cases hu
  | cons url rest ih =>
    intro st hok u hu g hug
    cases hg : _extract_guid url with
    | none =>
      rw [processUrls_cons_noguid _ _ _ _ _ _ _ hg] at hok ⊢
      rcases List.mem_cons.mp hu with rfl | hmem2
      · rw [hug] at hg; cases hg
      · exact ih st hok u hmem2 g hug
    | some g0 =>
      by_cases hmem : g0 ∈ st.existing
      · rw [processUrls_cons_mem _ _ _ _ _ _ _ g0 hg hmem] at hok ⊢
        rcases List.mem_cons.mp hu with rfl | hmem2
        · rw [hug] at hg
          cases hg
          exact Or.inl (processUrls_existing_mono fetch wfail dir board rest st g hmem)
        · exact ih st hok u hmem2 g hug
      · cases hdl : _download_decision fetch url g0 board with
        | none =>
          have hfn := (download_none_iff fetch url g0 board).mp hdl
          rw [processUrls_cons_fetchfail _ _ _ _ _ _ _ g0 hg hmem hfn] at hok ⊢
          rcases List.mem_cons.mp hu with rfl | hmem2
          · exact Or.inr hfn
          · exact ih st hok u hmem2 g hug
        | some dec =>
          cases hw : wfail dir (g0 ++ ".txt") with
          | true =>
            rw [processUrls_cons_wfail _ _ _ _ _ _ _ g0 dec hg hmem hdl hw] at hok
            cases hok
          | false =>
            rw [processUrls_cons_write _ _ _ _ _ _ _ g0 dec hg hmem hdl hw] at hok ⊢
            rcases List.mem_cons.mp hu with rfl | hmem2
            · rw [hug] at hg
              cases hg
              exact Or.inl (processUrls_existing_mono fetch wfail dir board rest _ g
                (List.mem_cons_self _ _))
            · exact ih _ hok u hmem2 g hug

theorem processUrls_read (fetch : String → Option Soup)
    (wfail : String → String → Bool) (dir board : String) :
    ∀ (urls : List String) (st : BState) (d0 n0 c0 : String), SyncInv dir st →
      FS.read st.fs d0 n0 = some c0 →
      FS.read (processUrls fetch wfail dir board urls st).1.fs d0 n0 = some c0 := by
  intro urls
  induction urls with
  | nil => intro st d0 n0 c0 _ hr; rw [processUrls_nil]; exact hr
  | cons url rest ih =>
    intro st d0 n0 c0 hs hr
    cases hg : _extract_guid url with
    | none =>
      rw [processUrls_cons_noguid _ _ _ _ _ _ _ hg]
      exact ih st d0 n0 c0 hs hr
    | some g =>
      by_cases hmem : g ∈ st.existing
      · rw [processUrls_cons_mem _ _ _ _ _ _ _ g hg hmem]
        exact ih st d0 n0 c0 hs hr
      · cases hdl : _download_decision fetch url g board with
        | none =>
          rw [processUrls_cons_fetchfail _ _ _ _ _ _ _ g hg hmem
            ((download_none_iff fetch url g board).mp hdl)]
          exact ih st d0 n0 c0 hs hr
        | some dec =>
          cases hw : wfail dir (g ++ ".txt") with
          | true =>
            rw [processUrls_cons_wfail _ _ _ _ _ _ _ g dec hg hmem hdl hw]
            exact hr
          | false =>
            rw [processUrls_cons_write _ _ _ _ _ _ _ g dec hg hmem hdl hw]
            have hkey : ¬(dir = d0 ∧ g ++ ".txt" = n0) := by
              rintro ⟨rfl, rfl⟩
              have hstem : pyStem (g ++ ".txt") ∈ FS.txtStems st.fs dir :=
                read_some_mem_stems st.fs dir (g ++ ".txt") c0 hr
                  (txt_isSuffixOf_append g)
              rw [pyStem_append_txt g (extract_guid_ne_empty url g hg)] at hstem
              exact hmem ((hs g).mpr hstem)
            apply ih _ _ _ _ (sync_write_step dir st g dec.as_text
              (extract_guid_ne_empty url g hg) hs)
            rw [FS.read_write_ne st.fs dir (g ++ ".txt") dec.as_text d0 n0 hkey]
            exact hr

theorem processUrls_skip_all (fetch : String → Option Soup)
    (wfail : String → String → Bool) (dir board : String) :
    ∀ (urls : List String) (st : BState),
      (∀ u ∈ urls, ∀ g, _extract_guid u = some g →
        g ∈ st.existing ∨ fetch u = none) →
      processUrls fetch wfail dir board urls st = (st, none) := by
  intro urls
  induction urls with
  | nil => intro st _; rw [processUrls_nil]
  | cons url rest ih =>
    intro st hpre
    cases hg : _extract_guid url with
    | none =>
      rw [processUrls_cons_noguid _ _ _ _ _ _ _ hg]
      exact ih st (fun u hu => hpre u (List.mem_cons_of_mem _ hu))
    | some g =>
      rcases hpre url (List.mem_cons_self _ _) g hg with hmem | hfn
      · rw [processUrls_cons_mem _ _ _ _ _ _ _ g hg hmem]
        exact ih st (fun u hu => hpre u (List.mem_cons_of_mem _ hu))
      · by_cases hmem : g ∈ st.existing
        · rw [processUrls_cons_mem _ _ _ _ _ _ _ g hg hmem]
          exact ih st (fun u hu => hpre u (List.mem_cons_of_mem _ hu))
        · rw [processUrls_cons_fetchfail _ _ _ _ _ _ _ g hg hmem hfn]
          exact ih st (fun u hu => hpre u (List.mem_cons_of_mem _ hu))

theorem processUrls_noerr (fetch : String → Option Soup) (dir board : String) :
    ∀ (urls : List String) (st : BState),
      (processUrls fetch (fun _ _ => false) dir board urls st).2 = none := by
  intro urls
  induction urls with
  | nil => intro st; rw [processUrls_nil]
  | cons url rest ih =>
    intro st
    cases hg : _extract_guid url with
    | none =>
      rw [processUrls_cons_noguid _ _ _ _ _ _ _ hg]
      exact ih st
    | some g =>
      by_cases hmem : g ∈ st.existing
      · rw [processUrls_cons_mem _ _ _ _ _ _ _ g hg hmem]
        exact ih st
      · cases hdl : _download_decision fetch url g board with
        | none =>
          rw [processUrls_cons_fetchfail _ _ _ _ _ _ _ g hg hmem
            ((download_none_iff fetch url g board).mp hdl)]
          exact ih st
        | some dec =>
          rw [processUrls_cons_write _ _ _ _ _ _ _ g dec hg hmem hdl rfl]
          exact ih _

theorem processUrls_skip_failed_url (fetch : String → Option Soup)
    (wfail : String → String → Bool) (dir board u : String) (hfn : fetch u = none) :
    ∀ (pre post : List String) (st : BState),
      processUrls fetch wfail dir board (pre ++ u :: post) st =
        processUrls fetch wfail dir board (pre ++ post) st := by
  intro pre
  induction pre with
  | nil =>
    intro post st
    simp only [List.nil_append]
    cases hg : _extract_guid u with
    | none => rw [processUrls_cons_noguid _ _ _ _ _ _ _ hg]
    | some g =>
      by_cases hmem : g ∈ st.existing
      · rw [processUrls_cons_mem _ _ _ _ _ _ _ g hg hmem]
      · rw [processUrls_cons_fetchfail _ _ _ _ _ _ _ g hg hmem hfn]
  | cons x pre' ih =>
    intro post st
    simp only [List.cons_append]
    cases hg : _extract_guid x with
    | none =>
      rw [processUrls_cons_noguid _ _ _ _ _ _ _ hg,
        processUrls_cons_noguid _ _ _ _ _ _ _ hg]
      exact ih post st
    | some g =>
      by_cases hmem : g ∈ st.existing
      · rw [processUrls_cons_mem _ _ _ _ _ _ _ g hg hmem,
          processUrls_cons_mem _ _ _ _ _ _ _ g hg hmem]
        exact ih post st
      · cases hdl : _download_decision fetch x g board with
        | none =>
          have hxf := (download_none_iff fetch x g board).mp hdl
          rw [processUrls_cons_fetchfail _ _ _ _ _ _ _ g hg hmem hxf,
            processUrls_cons_fetchfail _ _ _ _ _ _ _ g hg hmem hxf]
          exact ih post st
        | some dec =>
          cases hw : wfail dir (g ++ ".txt") with
          | true =>
            rw [processUrls_cons_wfail _ _ _ _ _ _ _ g dec hg hmem hdl hw,
              processUrls_cons_wfail _ _ _ _ _ _ _ g dec hg hmem hdl hw]
          | false =>
            rw [processUrls_cons_write _ _ _ _ _ _ _ g dec hg hmem hdl hw,
              processUrls_cons_write _ _ _ _ _ _ _ g dec hg hmem hdl hw]
            exact ih post _

/-! ## runBoards lemmas -/

theorem runBoards_nil (fetch : String → Option Soup) (wfail : String → String → Bool)
    (root : String) (fs : FS) (acc : List (String × Nat × Nat)) :
    runBoards fetch wfail root [] fs acc = ((fs, acc), none) := rfl

theorem runBoards_cons_ok (fetch : String → Option Soup) (wfail : String → String → Bool)
    (root board : String) (urls : List String) (rest : List (String × List String))
    (fs : FS) (acc : List (String × Nat × Nat))
    (h : (processUrls fetch wfail (boardDir root board) board urls
      ⟨fs, (FS.txtStems fs (boardDir root board)).dedup, 0⟩).2 = none) :
    runBoards fetch wfail root ((board, urls) :: rest) fs acc =
      runBoards fetch wfail root rest
        (processUrls fetch wfail (boardDir root board) board urls
          ⟨fs, (FS.txtStems fs (boardDir root board)).dedup, 0⟩).1.fs
        (acc ++ [(board,
          (processUrls fetch wfail (boardDir root board) board urls
            ⟨fs, (FS.txtStems fs (boardDir root board)).dedup, 0⟩).1.existing.length,
          (processUrls fetch wfail (boardDir root board) board urls
            ⟨fs, (FS.txtStems fs (boardDir root board)).dedup, 0⟩).1.added)]) := by
  rw [runBoards]
  simp only [h]

theorem runBoards_cons_err (fetch : String → Option Soup) (wfail : String → String → Bool)
    (root board : String) (urls : List String) (rest : List (String × List String))
    (fs : FS) (acc : List (String × Nat × Nat)) (e : RunErr)
    (h : (processUrls fetch wfail (boardDir root board) board urls
      ⟨fs, (FS.txtStems fs (boardDir root board)).dedup, 0⟩).2 = some e) :
    runBoards fetch wfail root ((board, urls) :: rest) fs acc =
      (((processUrls fetch wfail (boardDir root board) board urls
        ⟨fs, (FS.txtStems fs (boardDir root board)).dedup, 0⟩).1.fs, acc), some e) := by
  rw [runBoards]
  simp only [h]

theorem dedup_sync (fs : FS) (dir : String) :
    SyncInv dir ⟨fs, (FS.txtStems fs dir).dedup, 0⟩ := by
  intro x
  simp only []
  exact List.mem_dedup

theorem runBoards_stems_mono (fetch : String → Option Soup)
    (wfail : String → String → Bool) (root : String) :
    ∀ (groups : List (String × List String)) (fs : FS)
      (acc : List (String × Nat × Nat)) (d' x : String),
      x ∈ FS.txtStems fs d' →
      x ∈ FS.txtStems (runBoards fetch wfail root groups fs acc).1.1 d' := by
  intro groups
  induction groups with
  | nil => intro fs acc d' x hx; rw [runBoards_nil]; exact hx
  | cons bu rest ih =>
    obtain ⟨board, urls⟩ := bu
    intro fs acc d' x hx
    cases hok : (processUrls fetch wfail (boardDir root board) board urls
        ⟨fs, (FS.txtStems fs (boardDir root board)).dedup, 0⟩).2 with
    | none =>
      rw [runBoards_cons_ok _ _ _ _ _ _ _ _ hok]
      exact ih _ _ d' x (processUrls_stems_mono _ _ _ _ _ _ d' x hx)
    | some e =>
      rw [runBoards_cons_err _ _ _ _ _ _ _ _ _ hok]
      exact processUrls_stems_mono _ _ _ _ _ _ d' x hx

theorem runBoards_known (fetch : String → Option Soup)
    (wfail : String → String → Bool) (root : String) :
    ∀ (groups : List (String × List String)) (fs : FS)
      (acc : List (String × Nat × Nat)),
      (runBoards fetch wfail root groups fs acc).2 = none →
      ∀ bu ∈ groups, ∀ u ∈ bu.2, ∀ g, _extract_guid u = some g →
        g ∈ FS.txtStems (runBoards fetch wfail root groups fs acc).1.1
            (boardDir root bu.1) ∨ fetch u = none := by
  intro groups
  induction groups with
  | nil => intro fs acc _ bu hbu; cases hbu
  | cons bu0 rest ih =>
    obtain ⟨board, urls⟩ := bu0
    intro fs acc hok bu hbu u hu g hg
    cases hp : (processUrls fetch wfail (boardDir root board) board urls
        ⟨fs, (FS.txtStems fs (boardDir root board)).dedup, 0⟩).2 with
    | some e =>
      rw [runBoards_cons_err _ _ _ _ _ _ _ _ _ hp] at hok
      cases hok
    | none =>
      rw [runBoards_cons_ok _ _ _ _ _ _ _ _ hp] at hok ⊢
      rcases List.mem_cons.mp hbu with rfl | hbu2
      · rcases processUrls_known fetch wfail (boardDir root board) board urls
            ⟨fs, (FS.txtStems fs (boardDir root board)).dedup, 0⟩ hp u hu g hg with
          hmem | hfn
        · left
          have hsync := processUrls_sync fetch wfail (boardDir root board) board urls
            ⟨fs, (FS.txtStems fs (boardDir root board)).dedup, 0⟩
            (dedup_sync fs (boardDir root board))
          exact runBoards_stems_mono fetch wfail root rest _ _ _ g
            ((hsync g).mp hmem)
        · exact Or.inr hfn
      · exact ih _ _ hok bu hbu2 u hu g hg

theorem runBoards_skip (fetch : String → Option Soup)
    (wfail : String → String → Bool) (root : String) :
    ∀ (groups : List (String × List String)) (fs : FS)
      (acc : List (String × Nat × Nat)),
      (∀ bu ∈ groups, ∀ u ∈ bu.2, ∀ g, _extract_guid u = some g →
        g ∈ FS.txtStems fs (boardDir root bu.1) ∨ fetch u = none) →
      runBoards fetch wfail root groups fs acc =
        ((fs, acc ++ groups.map (fun bu =>
          (bu.1, (FS.txtStems fs (boardDir root bu.1)).dedup.length, 0))), none) := by
  intro groups
  induction groups with
  | nil => intro fs acc _; rw [runBoards_nil]; simp
  | cons bu0 rest ih =>
    obtain ⟨board, urls⟩ := bu0
    intro fs acc hpre
    have hskip : processUrls fetch wfail (boardDir root board) board urls
        ⟨fs, (FS.txtStems fs (boardDir root board)).dedup, 0⟩ =
        (⟨fs, (FS.txtStems fs (boardDir root board)).dedup, 0⟩, none) := by
      apply processUrls_skip_all
      intro u hu g hg
      rcases hpre (board, urls) (List.mem_cons_self _ _) u hu g hg with hmem | hfn
      · exact Or.inl (by simp only []; exact List.mem_dedup.mpr hmem)
      · exact Or.inr hfn
    rw [runBoards_cons_ok _ _ _ _ _ _ _ _ (by rw [hskip])]
    rw [hskip]
    rw [ih fs _ (fun bu hbu => hpre bu (List.mem_cons_of_mem _ hbu))]
    simp [List.append_assoc]

theorem runBoards_read (fetch : String → Option Soup)
    (wfail : String → String → Bool) (root : String) :
    ∀ (groups : List (String × List String)) (fs : FS)
      (acc : List (String × Nat × Nat)) (d0 n0 c0 : String),
      FS.read fs d0 n0 = some c0 →
      FS.read (runBoards fetch wfail root groups fs acc).1.1 d0 n0 = some c0 := by
  intro groups
  induction groups with
  | nil => intro fs acc d0 n0 c0 hr; rw [runBoards_nil]; exact hr
  | cons bu0 rest ih =>
    obtain ⟨board, urls⟩ := bu0
    intro fs acc d0 n0 c0 hr
    cases hp : (processUrls fetch wfail (boardDir root board) board urls
        ⟨fs, (FS.txtStems fs (boardDir root board)).dedup, 0⟩).2 with
    | none =>
      rw [runBoards_cons_ok _ _ _ _ _ _ _ _ hp]
      exact ih _ _ d0 n0 c0 (processUrls_read _ _ _ _ _ _ d0 n0 c0
        (dedup_sync fs (boardDir root board)) hr)
    | some e =>
      rw [runBoards_cons_err _ _ _ _ _ _ _ _ _ hp]
      exact processUrls_read _ _ _ _ _ _ d0 n0 c0
        (dedup_sync fs (boardDir root board)) hr

theorem runBoards_noerr_keys (fetch : String → Option Soup) (root : String) :
    ∀ (groups : List (String × List String)) (fs : FS)
      (acc : List (String × Nat × Nat)),
      (runBoards fetch (fun _ _ => false) root groups fs acc).2 = none ∧
      (runBoards fetch (fun _ _ => false) root groups fs acc).1.2.map
          (fun e => e.1) =
        acc.map (fun e => e.1) ++ groups.map (fun bu => bu.1) := by
  intro groups
  induction groups with
  | nil => intro fs acc; rw [runBoards_nil]; simp
  | cons bu0 rest ih =>
    obtain ⟨board, urls⟩ := bu0
    intro fs acc
    have hok := processUrls_noerr fetch (boardDir root board) board urls
      ⟨fs, (FS.txtStems fs (boardDir root board)).dedup, 0⟩
    rw [runBoards_cons_ok _ _ _ _ _ _ _ _ hok]
    refine ⟨(ih _ _).1, ?_⟩
    rw [(ih _ _).2]
    simp

/-! ## update_decision_knowledge shapes -/

theorem update_ok_shape (sfetch : String → Nat × XmlElem) (fetch : String → Option Soup)
    (wfail : String → String → Bool) (fuel : Nat) (root smUrl : String) (fs : FS)
    (urls : List String) (hsm : _iterate_sitemap_urls sfetch fuel smUrl = .ok urls)
    (hrb : (runBoards fetch wfail root (groupByBoard urls) fs []).2 = none) :
    update_decision_knowledge sfetch fetch wfail fuel root smUrl fs =
      ((runBoards fetch wfail root (groupByBoard urls) fs []).1.1,
       .ok (runBoards fetch wfail root (groupByBoard urls) fs []).1.2) := by
  rw [update_decision_knowledge]
  simp only [hsm, hrb]

theorem update_err_shape (sfetch : String → Nat × XmlElem) (fetch : String → Option Soup)
    (wfail : String → String → Bool) (fuel : Nat) (root smUrl : String) (fs : FS)
    (urls : List String) (e : RunErr)
    (hsm : _iterate_sitemap_urls sfetch fuel smUrl = .ok urls)
    (hrb : (runBoards fetch wfail root (groupByBoard urls) fs []).2 = some e) :
    update_decision_knowledge sfetch fetch wfail fuel root smUrl fs =
      ((runBoards fetch wfail root (groupByBoard urls) fs []).1.1, .error e) := by
  rw [update_decision_knowledge]
  simp only [hsm, hrb]

/-! ## Claim C1 -/

/-- C1: idempotence of reconciliation. If a run against archive fs completes
with final archive fs1, then a second run with the same sitemap and page
oracles returns the archive fs1 unchanged (identical on-disk file set) and a
summary whose added component is 0 for every board. -/
theorem C1_idempotent (sfetch : String → Nat × XmlElem) (fetch : String → Option Soup)
    (wfail : String → String → Bool) (fuel : Nat) (root smUrl : String) (fs fs1 : FS)
    (sum1 : List (String × Nat × Nat))
    (h : update_decision_knowledge sfetch fetch wfail fuel root smUrl fs =
      (fs1, .ok sum1)) :
    ∃ sum2, update_decision_knowledge sfetch fetch wfail fuel root smUrl fs1 =
        (fs1, .ok sum2) ∧ ∀ e ∈ sum2, e.2.2 = 0 := by
  cases hsm : _iterate_sitemap_urls sfetch fuel smUrl with
  | error msg =>
    exfalso
    rw [update_decision_knowledge] at h
    simp only [hsm] at h
    have h2 := congrArg Prod.snd h
    simp at h2
  | ok urls =>
    cases hrb : (runBoards fetch wfail root (groupByBoard urls) fs []).2 with
    | some e =>
      exfalso
      rw [update_err_shape sfetch fetch wfail fuel root smUrl fs urls e hsm hrb] at h
      have h2 := congrArg Prod.snd h
      simp at h2
    | none =>
      rw [update_ok_shape sfetch fetch wfail fuel root smUrl fs urls hsm hrb] at h
      have hfs : (runBoards fetch wfail root (groupByBoard urls) fs []).1.1 = fs1 :=
        congrArg Prod.fst h
      have hknown := runBoards_known fetch wfail root (groupByBoard urls) fs [] hrb
      rw [hfs] at hknown
      have hskip := runBoards_skip fetch wfail root (groupByBoard urls) fs1 [] hknown
      refine ⟨(groupByBoard urls).map (fun bu =>
        (bu.1, (FS.txtStems fs1 (boardDir root bu.1)).dedup.length, 0)), ?_, ?_⟩
      · rw [update_ok_shape sfetch fetch wfail fuel root smUrl fs1 urls hsm
          (by rw [hskip])]
        rw [hskip]
        simp
      · intro e he
        rcases List.mem_map.mp he with ⟨bu, _, rfl⟩
        rfl

/-! ## Claim C2 -/

/-- C2: reruns are pure additions. Any file present in the archive before a
run (same directory and file name) still has its original content afterwards,
whether the run completes or aborts: the reconciler skips every candidate
whose identifier is already among the directory's filename stems and so never
rewrites an existing file. -/
theorem C2_pure_additions (sfetch : String → Nat × XmlElem) (fetch : String → Option Soup)
    (wfail : String → String → Bool) (fuel : Nat) (root smUrl : String) (fs : FS)
    (d n c : String) (h : FS.read fs d n = some c) :
    FS.read (update_decision_knowledge sfetch fetch wfail fuel root smUrl fs).1 d n
      = some c := by
  cases hsm : _iterate_sitemap_urls sfetch fuel smUrl with
  | error msg =>
    rw [update_decision_knowledge]
    simp only [hsm]
    exact h
  | ok urls =>
    cases hrb : (runBoards fetch wfail root (groupByBoard urls) fs []).2 with
    | none =>
      rw [update_ok_shape sfetch fetch wfail fuel root smUrl fs urls hsm hrb]
      exact runBoards_read fetch wfail root (groupByBoard urls) fs [] d n c h
    | some e =>
      rw [update_err_shape sfetch fetch wfail fuel root smUrl fs urls e hsm hrb]
      exact runBoards_read fetch wfail root (groupByBoard urls) fs [] d n c h

/-! ## Claim C3 -/

/-- C3: per-URL failure isolation. A URL whose fetch or extraction raises is
skipped exactly as if it were absent from its board's list: no file is
written for it, it is not counted in added, its identifier is not added to
the known-set, and the remaining URLs and boards are processed identically.
Moreover, when writes do not fail, the run with any page-fetch oracle (hence
with any set of failing pages) returns a summary covering every discovered
board. -/
theorem C3_per_url_isolation :
    (∀ (fetch : String → Option Soup) (wfail : String → String → Bool)
        (dir board u : String) (pre post : List String) (st : BState),
      fetch u = none →
      processUrls fetch wfail dir board (pre ++ u :: post) st =
        processUrls fetch wfail dir board (pre ++ post) st) ∧
    (∀ (sfetch : String → Nat × XmlElem) (fetch : String → Option Soup) (fuel : Nat)
        (root smUrl : String) (fs : FS) (urls : List String),
      _iterate_sitemap_urls sfetch fuel smUrl = .ok urls →
      ∃ fs' sum,
        update_decision_knowledge sfetch fetch (fun _ _ => false) fuel root smUrl fs =
          (fs', .ok sum) ∧
        sum.map (fun e => e.1) = (groupByBoard urls).map (fun bu => bu.1)) := by
  constructor
  · intro fetch wfail dir board u pre post st hfn
    exact processUrls_skip_failed_url fetch wfail dir board u hfn pre post st
  · intro sfetch fetch fuel root smUrl fs urls hsm
    have hkeys := runBoards_noerr_keys fetch root (groupByBoard urls) fs []
    refine ⟨(runBoards fetch (fun _ _ => false) root (groupByBoard urls) fs []).1.1,
      (runBoards fetch (fun _ _ => false) root (groupByBoard urls) fs []).1.2,
      update_ok_shape sfetch fetch (fun _ _ => false) fuel root smUrl fs urls hsm
        hkeys.1, ?_⟩
    rw [hkeys.2]
    simp

/-! ## Claim C10 -/

/-- C10: write failures are not isolated. The write_text call sits outside
the per-URL exception handler, so when the decision page fetch and extraction
succeed but writing the serialized file raises, the board loop stops at that
URL (the remaining URLs are not processed) and update_decision_knowledge
propagates the error, aborting the entire run. -/
theorem C10_write_failure_aborts :
    (∀ (fetch : String → Option Soup) (wfail : String → String → Bool)
        (dir board u : String) (post : List String) (st : BState) (g : String)
        (soup : Soup),
      _extract_guid u = some g → g ∉ st.existing → fetch u = some soup →
      wfail dir (g ++ ".txt") = true →
      processUrls fetch wfail dir board (u :: post) st =
        (st, some (.writeErr dir (g ++ ".txt")))) ∧
    (∀ (sfetch : String → Nat × XmlElem) (fetch : String → Option Soup)
        (wfail : String → String → Bool) (fuel : Nat) (root smUrl : String) (fs : FS)
        (u g : String) (soup : Soup),
      _iterate_sitemap_urls sfetch fuel smUrl = .ok [u] →
      _extract_guid u = some g → fetch u = some soup →
      g ∉ FS.txtStems fs (boardDir root (_derive_board_name u)) →
      wfail (boardDir root (_derive_board_name u)) (g ++ ".txt") = true →
      update_decision_knowledge sfetch fetch wfail fuel root smUrl fs =
        (fs, .error (.writeErr (boardDir root (_derive_board_name u))
          (g ++ ".txt")))) := by
  have hstep : ∀ (fetch : String → Option Soup) (wfail : String → String → Bool)
      (dir board u : String) (post : List String) (st : BState) (g : String)
      (soup : Soup),
      _extract_guid u = some g → g ∉ st.existing → fetch u = some soup →
      wfail dir (g ++ ".txt") = true →
      processUrls fetch wfail dir board (u :: post) st =
        (st, some (.writeErr dir (g ++ ".txt"))) := by
    intro fetch wfail dir board u post st g soup hg hmem hf hw
    have hdl : _download_decision fetch u g board =
        some { guid := g, board := board, url := u,
               title := pyOrStr (_extract_title soup) ("Afgørelse " ++ g),
               published := _extract_published soup,
               body := _extract_body_text soup } := by
      rw [_download_decision, hf]
      rfl
    exact processUrls_cons_wfail fetch wfail dir board u post st g _ hg hmem hdl hw
  refine ⟨hstep, ?_⟩
  intro sfetch fetch wfail fuel root smUrl fs u g soup hsm hg hf hmem hw
  have hgroup : groupByBoard [u] = [(_derive_board_name u, [u])] := by
    rw [groupByBoard]
    simp [hg, addToGroup]
  have hmem2 : g ∉ (FS.txtStems fs (boardDir root (_derive_board_name u))).dedup :=
    fun hx => hmem (List.mem_dedup.mp hx)
  have hp := hstep fetch wfail (boardDir root (_derive_board_name u))
    (_derive_board_name u) u []
    ⟨fs, (FS.txtStems fs (boardDir root (_derive_board_name u))).dedup, 0⟩ g soup
    hg hmem2 hf hw
  rw [update_decision_knowledge]
  simp only [hsm, hgroup]
  rw [runBoards_cons_err _ _ _ _ _ _ _ _ _ (by rw [hp])]
  rw [hp]

/-! ## Witness fixtures for the reconciler claims -/

/-- A decision page whose body lives in an article element. -/
def wSoup : Soup := ⟨none, none, none, none, some "Body", none, none, "full"⟩

/-- A sitemap endpoint: the entry point s is a urlset with one decision URL. -/
def wSfetch : String → Nat × XmlElem := fun u =>
  if u = "s" then (200, urlsetDoc ["https://x.dk/afgoerelse/A1"])
  else (200, urlsetDoc [])

def wFetch : String → Option Soup := fun _ => some wSoup

/-- A page-fetch oracle for which one URL fails. -/
def c3Fetch : String → Option Soup := fun u => if u = "bad" then none else some wSoup

/-- C1 witness: a completed first run against an empty archive, then the
theorem applied to rerun on its result. -/
theorem C1_idempotent_witness :
    ∃ sum2,
      update_decision_knowledge wSfetch wFetch (fun _ _ => false) 1 "r" "s"
          (update_decision_knowledge wSfetch wFetch (fun _ _ => false) 1 "r" "s" []).1 =
        ((update_decision_knowledge wSfetch wFetch (fun _ _ => false) 1 "r" "s" []).1,
         .ok sum2) ∧
      ∀ e ∈ sum2, e.2.2 = 0 :=
  C1_idempotent wSfetch wFetch (fun _ _ => false) 1 "r" "s" []
    (update_decision_knowledge wSfetch wFetch (fun _ _ => false) 1 "r" "s" []).1
    [("Afgoerelse", 1, 1)] rfl

/-- C2 witness: a pre-existing file keeps its content through a run that
discovers its URL again. -/
theorem C2_pure_additions_witness :
    FS.read [⟨"r/Afgoerelse afgørelser", "A1.txt", "old content"⟩]
        "r/Afgoerelse afgørelser" "A1.txt" = some "old content" ∧
    FS.read (update_decision_knowledge wSfetch wFetch (fun _ _ => false) 1 "r" "s"
        [⟨"r/Afgoerelse afgørelser", "A1.txt", "old content"⟩]).1
      "r/Afgoerelse afgørelser" "A1.txt" = some "old content" :=
  ⟨rfl,
   C2_pure_additions wSfetch wFetch (fun _ _ => false) 1 "r" "s"
     [⟨"r/Afgoerelse afgørelser", "A1.txt", "old content"⟩]
     "r/Afgoerelse afgørelser" "A1.txt" "old content" rfl⟩

/-- C3 witness: dropping a URL whose fetch fails changes nothing, and a run
with a failing page still returns a summary covering every board. -/
theorem C3_per_url_isolation_witness :
    processUrls c3Fetch (fun _ _ => false) "d" "b"
        (["https://x.dk/afgoerelse/A1"] ++ "bad" :: []) ⟨[], [], 0⟩ =
      processUrls c3Fetch (fun _ _ => false) "d" "b"
        (["https://x.dk/afgoerelse/A1"] ++ []) ⟨[], [], 0⟩ ∧
    (∃ fs' sum,
      update_decision_knowledge wSfetch c3Fetch (fun _ _ => false) 1 "r" "s" [] =
        (fs', .ok sum) ∧
      sum.map (fun e => e.1) =
        (groupByBoard ["https://x.dk/afgoerelse/A1"]).map (fun bu => bu.1)) :=
  ⟨C3_per_url_isolation.1 c3Fetch (fun _ _ => false) "d" "b" "bad"
     ["https://x.dk/afgoerelse/A1"] [] ⟨[], [], 0⟩ rfl,
   C3_per_url_isolation.2 wSfetch c3Fetch 1 "r" "s" []
     ["https://x.dk/afgoerelse/A1"] rfl⟩

/-- C10 witness: a fetchable page whose write fails aborts the run with the
write error and processes nothing further. -/
theorem C10_write_failure_aborts_witness :
    processUrls wFetch (fun _ _ => true) "d" "b"
        ("https://x.dk/afgoerelse/A1" :: ["https://x.dk/afgoerelse/A2"]) ⟨[], [], 0⟩ =
      (⟨[], [], 0⟩, some (.writeErr "d" ("A1" ++ ".txt"))) ∧
    update_decision_knowledge wSfetch wFetch (fun _ _ => true) 1 "r" "s" [] =
      ([], .error (.writeErr
        (boardDir "r" (_derive_board_name "https://x.dk/afgoerelse/A1"))
        ("A1" ++ ".txt"))) :=
  ⟨C10_write_failure_aborts.1 wFetch (fun _ _ => true) "d" "b"
     "https://x.dk/afgoerelse/A1" ["https://x.dk/afgoerelse/A2"] ⟨[], [], 0⟩
     "A1" wSoup (by decide) (by decide) rfl rfl,
   C10_write_failure_aborts.2 wSfetch wFetch (fun _ _ => true) 1 "r" "s" []
     "https://x.dk/afgoerelse/A1" "A1" wSoup rfl (by decide) rfl (by decide) rfl⟩
